import Mathlib

/-!
Verification development for the filter-driven tree-transformation engine of
the sins2-scenario-tool repository (file scenario-scripts/scenarioOperations.py).

The Python code is shallowly embedded: JSON-like runtime values become the
inductive type `Value` (Python int and float are kept as separate
constructors, floats modelled as exact rationals; IEEE rounding is not
relevant to any property considered here), Python dicts become association
lists with unique keys (Python guarantees key uniqueness), and code that can
raise becomes `Except PyErr`.  In-place mutation of dicts during the walk is
modelled explicitly: every walk function returns both the value the Python
function returns and the state the walked (caller-owned) object has been left
in, so that behaviour on a mid-walk exception is faithfully captured.
-/

namespace ScenarioOps

/-- Errors the embedded Python fragments can raise. -/
inductive PyErr where
  | typeError : PyErr
  | attributeError : PyErr
  | keyError : PyErr
  deriving DecidableEq, Repr

/-- The `Operation` enum of scenarioOperations.py. -/
inductive Operation where
  | ADD : Operation
  | CHANGE : Operation
  | MULTIPLY : Operation
  | DIVIDE : Operation
  | SCALE : Operation
  | REMOVE : Operation
  | MOVE : Operation
  | ADD_PROPERTY : Operation
  deriving DecidableEq, Repr

/-- The `Comparison` enum of scenarioOperations.py. -/
inductive Comparison where
  | EQUALS : Comparison
  | NOT_EQUALS : Comparison
  | GREATER_THAN : Comparison
  | LESS_THAN : Comparison
  deriving DecidableEq, Repr

/-- The `LogicalOp` enum of scenarioOperations.py. -/
inductive LogicalOp where
  | AND : LogicalOp
  | OR : LogicalOp
  | NAND : LogicalOp
  | XOR : LogicalOp
  deriving DecidableEq, Repr

/-- JSON-like Python runtime values.  Dicts are association lists
(insertion-ordered, unique keys as in Python). -/
inductive Value where
  | null : Value
  | bool (b : Bool) : Value
  | int (n : Int) : Value
  | float (q : ℚ) : Value
  | str (s : String) : Value
  | arr (l : List Value) : Value
  | obj (fields : List (String × Value)) : Value

/-- Dict key lookup (`d[k]` / `d.get(k)`): first matching key. -/
def lookupV : List (String × Value) → String → Option Value
  | [], _ => none
  | (k, v) :: rest, key => if k = key then some v else lookupV rest key

/-- Dict key membership test (`k in d`). -/
def hasKey (f : List (String × Value)) (key : String) : Bool :=
  (lookupV f key).isSome

/-- Dict assignment `d[k] = v` for a key already present: replaces the value
of the first binding of `k`, keeping insertion order. -/
def setKey : List (String × Value) → String → Value → List (String × Value)
  | [], _, _ => []
  | (k, v) :: rest, key, nv =>
    if k = key then (k, nv) :: rest else (k, v) :: setKey rest key nv

/-- Numeric view of a Python value: bools are ints in Python (True == 1),
ints and floats are numbers.  `none` for non-numeric values. -/
def numQ : Value → Option ℚ
  | .bool b => some (if b then 1 else 0)
  | .int n => some (n : ℚ)
  | .float q => some q
  | _ => none

mutual

/-- Python `==` on the embedded values: numbers (including bools) compare
numerically across int/float/bool, strings by content, lists elementwise,
dicts by key set and per-key values; any cross-kind comparison is `False`,
never an error.  The int/float cross cases compare the int cast into ℚ. -/
def pyEq : Value → Value → Bool
  | .null, .null => true
  | .bool a, .bool c => a = c
  | .bool a, .int c => (if a then (1 : Int) else 0) = c
  | .bool a, .float c => decide ((if a then (1 : ℚ) else 0) = c)
  | .int a, .bool c => a = (if c then (1 : Int) else 0)
  | .int a, .int c => a = c
  | .int a, .float c => decide ((a : ℚ) = c)
  | .float a, .bool c => decide (a = (if c then (1 : ℚ) else 0))
  | .float a, .int c => decide (a = (c : ℚ))
  | .float a, .float c => a = c
  | .str a, .str c => a = c
  | .arr l, .arr m => pyEqL l m
  | .obj f, .obj g => f.length = g.length && pyEqSub f g
  | _, _ => false

/-- Python `==` on lists: equal length and elementwise equal. -/
def pyEqL : List Value → List Value → Bool
  | [], [] => true
  | x :: xs, y :: ys => pyEq x y && pyEqL xs ys
  | _, _ => false

/-- Every binding of `f` has a `==` binding in `g` (with Python's unique
keys, together with equal lengths this is dict equality). -/
def pyEqSub : List (String × Value) → List (String × Value) → Bool
  | [], _ => true
  | (k, va) :: rest, g =>
    (match lookupV g k with
     | some vb => pyEq va vb
     | none => false) && pyEqSub rest g

end

/-- Lexicographic code-point comparison of character lists, Python's `<` on
strings. -/
def strLtB : List Char → List Char → Bool
  | _, [] => false
  | [], _ :: _ => true
  | a :: as, c :: cs => if a < c then true else if c < a then false else strLtB as cs

mutual

/-- Python `<` on the embedded values.  Numbers (including bools) compare
numerically, strings lexicographically by code point, lists
lexicographically; every other combination raises TypeError, exactly as
CPython does for these built-in types. -/
def pyLt : Value → Value → Except PyErr Bool
  | .bool a, .bool c => .ok (decide ((if a then (1 : ℚ) else 0) < if c then 1 else 0))
  | .bool a, .int c => .ok (decide ((if a then (1 : Int) else 0) < c))
  | .bool a, .float c => .ok (decide ((if a then (1 : ℚ) else 0) < c))
  | .int a, .bool c => .ok (decide (a < if c then (1 : Int) else 0))
  | .int a, .int c => .ok (decide (a < c))
  | .int a, .float c => .ok (decide ((a : ℚ) < c))
  | .float a, .bool c => .ok (decide (a < if c then (1 : ℚ) else 0))
  | .float a, .int c => .ok (decide (a < (c : ℚ)))
  | .float a, .float c => .ok (decide (a < c))
  | .str a, .str c => .ok (strLtB a.data c.data)
  | .arr l, .arr m => pyLtL l m
  | _, _ => .error .typeError

/-- Python `<` on lists: skip `==` prefixes, then compare the first differing
elements; a strict prefix is smaller. -/
def pyLtL : List Value → List Value → Except PyErr Bool
  | [], [] => .ok false
  | [], _ :: _ => .ok true
  | _ :: _, [] => .ok false
  | x :: xs, y :: ys => if pyEq x y then pyLtL xs ys else pyLt x y

end

/-- Decimal digits to a natural number. -/
def digitsVal : List Char → Nat
  | [] => 0
  | c :: rest => (c.toNat - '0'.toNat) * 10 ^ rest.length + digitsVal rest

/-- Exact value of `intPart.fracPart * 10 ^ exp`. -/
def decimalVal (intPart fracPart : List Char) (exp : Int) : ℚ :=
  ((digitsVal intPart : ℚ) + (digitsVal fracPart : ℚ) / 10 ^ fracPart.length)
    * (10 : ℚ) ^ exp

/-- Parse of the decimal core `digits [. digits]`, returning the integer and
fractional digit runs; fails when both are empty. -/
def parseMantissa (cs : List Char) : Option ((List Char × List Char) × List Char) :=
  let intPart := cs.takeWhile Char.isDigit
  let rest1 := cs.dropWhile Char.isDigit
  match rest1 with
  | '.' :: rest2 =>
    let fracPart := rest2.takeWhile Char.isDigit
    let rest3 := rest2.dropWhile Char.isDigit
    if intPart.isEmpty && fracPart.isEmpty then none
    else some ((intPart, fracPart), rest3)
  | _ =>
    if intPart.isEmpty then none else some ((intPart, []), rest1)

/-- Optional sign; returns `true` for a leading minus. -/
def parseSign : List Char → Bool × List Char
  | '-' :: rest => (true, rest)
  | '+' :: rest => (false, rest)
  | cs => (false, cs)

/-- Optional exponent `(e|E) [sign] digits`.  `none` means a malformed
exponent (dangling `e`), `some (exp, rest)` the parsed exponent value. -/
def parseExp : List Char → Option (Int × List Char)
  | 'e' :: rest => parseExpTail rest
  | 'E' :: rest => parseExpTail rest
  | cs => some (0, cs)
where
  parseExpTail (rest : List Char) : Option (Int × List Char) :=
    let (neg, rest1) := parseSign rest
    let ds := rest1.takeWhile Char.isDigit
    let rest2 := rest1.dropWhile Char.isDigit
    if ds.isEmpty then none
    else some (if neg then -(digitsVal ds : Int) else (digitsVal ds : Int), rest2)

/-- Python `float(s)` on a string, modelling the plain decimal forms
`[ws] [sign] (digits [. digits] | . digits) [(e|E) [sign] digits] [ws]`.
The exotic accepted spellings (`inf`, `nan`, digit underscores) are outside
the documents this tool handles and are not modelled; they would parse to
non-rational values anyway. -/
def parsePyFloat (s : String) : Option ℚ :=
  let cs := (s.data.dropWhile Char.isWhitespace).reverse.dropWhile Char.isWhitespace |>.reverse
  let (neg, cs1) := parseSign cs
  match parseMantissa cs1 with
  | none => none
  | some ((intPart, fracPart), rest) =>
    match parseExp rest with
    | none => none
    | some (exp, rest2) =>
      if rest2.isEmpty then
        some ((if neg then -1 else 1) * decimalVal intPart fracPart exp)
      else none

/-- Join rendered items with a comma and a space. -/
def joinComma (l : List String) : String :=
  String.intercalate ", " l

/-- Rendering of a float for `str()`: exact for integral floats (`5.0`);
for non-integral floats CPython prints the shortest round-tripping decimal,
which has no exact rational analogue, so a fraction spelling stands in (no
property below depends on it: all ids in the claims are integers). -/
def floatStr (q : ℚ) : String :=
  if q.den = 1 then toString q.num ++ ".0"
  else toString q.num ++ "e/" ++ toString q.den

mutual

/-- Python `str()` of a value: `None`, `True`/`False`, decimal ints,
floats per `floatStr`, strings verbatim, containers via `repr` of their
elements as CPython does. -/
def pyStr : Value → String
  | .null => "None"
  | .bool b => if b then "True" else "False"
  | .int n => toString n
  | .float q => floatStr q
  | .str s => s
  | .arr l => "[" ++ joinComma (pyReprL l) ++ "]"
  | .obj f => "\x7b" ++ joinComma (pyReprF f) ++ "\x7d"

/-- Python `repr()` of a value: as `str()` but strings quoted (escape
sequences inside strings are not modelled; no claim exercises them). -/
def pyRepr : Value → String
  | .str s => "\x27" ++ s ++ "\x27"
  | .null => "None"
  | .bool b => if b then "True" else "False"
  | .int n => toString n
  | .float q => floatStr q
  | .arr l => "[" ++ joinComma (pyReprL l) ++ "]"
  | .obj f => "\x7b" ++ joinComma (pyReprF f) ++ "\x7d"

/-- `repr` of each list element. -/
def pyReprL : List Value → List String
  | [] => []
  | x :: xs => pyRepr x :: pyReprL xs

/-- `repr` of each dict entry, `key: value`. -/
def pyReprF : List (String × Value) → List String
  | [] => []
  | (k, v) :: rest => ("\x27" ++ k ++ "\x27: " ++ pyRepr v) :: pyReprF rest

end

/-- The `Filter` class: one property / comparison / literal predicate. -/
structure Filter where
  property : String
  comparison : Comparison
  value : Value

/-- `Filter.evaluate` (scenarioOperations.py lines 35-49): absent property
is `False`; EQUALS / NOT_EQUALS use Python `==` (total), GREATER_THAN and
LESS_THAN use Python order comparison, which raises TypeError on
non-order-comparable values.  `target > literal` is evaluated as
`literal < target`, as CPython does for the built-in types involved. -/
def Filter.evaluate (f : Filter) (o : List (String × Value)) : Except PyErr Bool :=
  match lookupV o f.property with
  | none => .ok false
  | some target =>
    match f.comparison with
    | .EQUALS => .ok (pyEq target f.value)
    | .NOT_EQUALS => .ok (!pyEq target f.value)
    | .GREATER_THAN => pyLt f.value target
    | .LESS_THAN => pyLt target f.value

/-- The `FilterGroup` class: predicates plus a logical combinator. -/
structure FilterGroup where
  filters : List Filter
  logical_op : LogicalOp

/-- The list comprehension `[f.evaluate(obj) for f in self.filters]`:
all predicates evaluated in order, the first raised error propagating. -/
def evalFilters : List Filter → List (String × Value) → Except PyErr (List Bool)
  | [], _ => .ok []
  | f :: fs, o =>
    match f.evaluate o with
    | .error e => .error e
    | .ok b =>
      match evalFilters fs o with
      | .error e => .error e
      | .ok bs => .ok (b :: bs)

/-- `FilterGroup.evaluate` (lines 56-67): reduce the predicate results with
the combinator; XOR is `sum(results) == 1`, i.e. exactly one true. -/
def FilterGroup.evaluate (g : FilterGroup) (o : List (String × Value)) : Except PyErr Bool :=
  match evalFilters g.filters o with
  | .error e => .error e
  | .ok results =>
    match g.logical_op with
    | .AND => .ok (results.all id)
    | .OR => .ok (results.any id)
    | .NAND => .ok (!results.all id)
    | .XOR => .ok (decide (results.count true = 1))

/-- Is the operation one of the four arithmetic ones (the list on line 103)? -/
def isArith (op : Operation) : Bool :=
  match op with
  | .ADD | .MULTIPLY | .DIVIDE | .SCALE => true
  | _ => false

/-- The expression `value * operator_adjustment` (operand times the float
adjustment): numeric operands multiply, any other operand raises TypeError
(CPython: str, list, dict, None times a float all raise). -/
def operandTimesAdj (value : Value) (adj : ℚ) : Except PyErr ℚ :=
  match numQ value with
  | some q => .ok (q * adj)
  | none => .error .typeError

/-- Python `current + x` where `x` is a float: numeric currents add, all
others raise TypeError. -/
def addFloat (cur : Value) (x : ℚ) : Except PyErr Value :=
  match numQ cur with
  | some c => .ok (.float (c + x))
  | none => .error .typeError

/-- Python `current * x` where `x` is a float: numeric currents multiply,
all others raise TypeError. -/
def mulFloat (cur : Value) (x : ℚ) : Except PyErr Value :=
  match numQ cur with
  | some c => .ok (.float (c * x))
  | none => .error .typeError

/-- Python `current / x` where `x` is a nonzero float. -/
def divFloat (cur : Value) (x : ℚ) : Except PyErr Value :=
  match numQ cur with
  | some c => .ok (.float (c / x))
  | none => .error .typeError

/-- Core of `process_value` after the string-coercion step, `cur` being the
(possibly coerced) current value (lines 107-120). -/
def processValueCore (op : Operation) (value : Value) (adj : ℚ) (cur : Value) :
    Except PyErr Value :=
  match op with
  | .ADD =>
    (match operandTimesAdj value adj with
     | .error e => .error e
     | .ok x => addFloat cur x)
  | .MULTIPLY =>
    (match operandTimesAdj value adj with
     | .error e => .error e
     | .ok x => mulFloat cur x)
  | .DIVIDE =>
    (match operandTimesAdj value adj with
     | .error e => .error e
     | .ok x => if x = 0 then .ok cur else divFloat cur x)
  | .SCALE => mulFloat cur adj
  | .CHANGE => .ok value
  | _ => .ok cur

/-- `process_value` (lines 96-120): a string current value is first coerced
with `float()`; if that fails and the operation is arithmetic the original
string is returned unchanged (no-op with a log line); otherwise the
operation is applied to the (coerced) current value. -/
def processValue (op : Operation) (value : Value) (adj : ℚ) (cur : Value) :
    Except PyErr Value :=
  match cur with
  | .str s =>
    (match parsePyFloat s with
     | some q => processValueCore op value adj (.float q)
     | none =>
       if isArith op then .ok (.str s)
       else processValueCore op value adj (.str s))
  | c => processValueCore op value adj c

/-- Result of `process_object` on one value: `ret` is the Python return
value (`none` models returning `None`, i.e. drop the node) paired with the
nodes appended to the closure-captured `nodes_to_move` list during the call;
`st` is the state the caller-visible argument object has been left in
(its `child_nodes` entry is reassigned in place on line 128, so on an
exception the object can already differ from the original). -/
structure RunRes where
  ret : Except PyErr (Option Value × List Value)
  st : Value

/-- Result of `process_list`: the rebuilt list plus collected moved nodes,
and the post-call states of the original list's elements (the list object
itself is never mutated, but its dict elements are). -/
structure ListRes where
  ret : Except PyErr (List Value × List Value)
  sts : List Value

/-- Result of processing a dict's field list (the lines 126-128 in-place
update `obj['child_nodes'] = process_list(obj['child_nodes'])` expressed on
the association list): new fields plus moved nodes, and the fields' state
when an exception escapes. -/
structure FieldsRes where
  ret : Except PyErr (List (String × Value) × List Value)
  stf : List (String × Value)

/-- Result of `process_list` applied to an arbitrary `child_nodes` value
(Python iterates whatever it is given): rebuilt element list plus moved
nodes, and the post-call state of the iterated value. -/
structure ChildRes where
  ret : Except PyErr (List Value × List Value)
  st : Value

/-- Iterating a string yields its one-character strings (each a non-dict,
non-list item that `process_list` keeps verbatim). -/
def strElems (s : String) : List Value :=
  s.data.map (fun c => Value.str (String.mk [c]))

/-- Iterating a dict yields its keys. -/
def keyElems (f : List (String × Value)) : List Value :=
  f.map (fun kv => Value.str kv.1)

/-- The body of `process_object` after the children have been processed
(lines 130-158): evaluate the filter group on the updated object and apply
the operation.  `f1` is the updated field list, `mv` the nodes the child
walk already collected for moving. -/
def afterChildren (op : Operation) (tp : String) (fg : FilterGroup)
    (value : Value) (adj : ℚ) (f1 : List (String × Value)) (mv : List Value) :
    RunRes :=
  match FilterGroup.evaluate fg f1 with
  | .error e => ⟨.error e, .obj f1⟩
  | .ok false => ⟨.ok (some (.obj f1), mv), .obj f1⟩
  | .ok true =>
    match op with
    | .REMOVE => ⟨.ok (none, mv), .obj f1⟩
    | .MOVE => ⟨.ok (none, mv ++ [.obj f1]), .obj f1⟩
    | .ADD_PROPERTY =>
      if hasKey f1 tp then ⟨.ok (some (.obj f1), mv), .obj f1⟩
      else ⟨.ok (some (.obj (f1 ++ [(tp, value)])), mv), .obj f1⟩
    | op' =>
      match lookupV f1 tp with
      | some cur =>
        (match processValue op' value adj cur with
         | .error e => ⟨.error e, .obj f1⟩
         | .ok nv => ⟨.ok (some (.obj (setKey f1 tp nv)), mv), .obj f1⟩)
      | none => ⟨.ok (some (.obj f1), mv), .obj f1⟩

mutual

/-- `process_object` (lines 122-158): non-dicts are returned unchanged; for
a dict the `child_nodes` entry (if any) is rewritten in place first, then
the filter group decides whether the operation applies. -/
def process_object (op : Operation) (tp : String) (fg : FilterGroup)
    (value : Value) (adj : ℚ) : Value → RunRes
  | .obj f =>
    (match fieldsWalk op tp fg value adj f with
     | ⟨.error e, stf⟩ => ⟨.error e, .obj stf⟩
     | ⟨.ok (f1, mv), _⟩ => afterChildren op tp fg value adj f1 mv)
  | x => ⟨.ok (some x, []), x⟩

/-- The in-place `obj['child_nodes'] = process_list(obj['child_nodes'])`
step on the field list: only the first `child_nodes` binding is rewritten,
every other binding is untouched. -/
def fieldsWalk (op : Operation) (tp : String) (fg : FilterGroup)
    (value : Value) (adj : ℚ) : List (String × Value) → FieldsRes
  | [] => ⟨.ok ([], []), []⟩
  | (k, cv) :: rest =>
    if k = "child_nodes" then
      match childWalk op tp fg value adj cv with
      | ⟨.error e, st⟩ => ⟨.error e, (k, st) :: rest⟩
      | ⟨.ok (nl, mv), _⟩ => ⟨.ok ((k, .arr nl) :: rest, mv), (k, .arr nl) :: rest⟩
    else
      match fieldsWalk op tp fg value adj rest with
      | ⟨.error e, strest⟩ => ⟨.error e, (k, cv) :: strest⟩
      | ⟨.ok (nrest, mv), strest⟩ => ⟨.ok ((k, cv) :: nrest, mv), (k, cv) :: strest⟩

/-- `process_list` applied to the raw `child_nodes` value: a list is walked
element by element; iterating a string or a dict yields strings (kept
verbatim, nothing collected); any other value raises TypeError (`for item
in lst` on a non-iterable). -/
def childWalk (op : Operation) (tp : String) (fg : FilterGroup)
    (value : Value) (adj : ℚ) : Value → ChildRes
  | .arr l =>
    (match process_list op tp fg value adj l with
     | ⟨.error e, sts⟩ => ⟨.error e, .arr sts⟩
     | ⟨.ok r, sts⟩ => ⟨.ok r, .arr sts⟩)
  | .str s => ⟨.ok (strElems s, []), .str s⟩
  | .obj f2 => ⟨.ok (keyElems f2, []), .obj f2⟩
  | cv => ⟨.error .typeError, cv⟩

/-- `process_list` (lines 160-173): dict items go through `process_object`
and are kept unless it returned `None`; list items are walked recursively
and kept unless the result is empty; all other items are kept verbatim. -/
def process_list (op : Operation) (tp : String) (fg : FilterGroup)
    (value : Value) (adj : ℚ) : List Value → ListRes
  | [] => ⟨.ok ([], []), []⟩
  | .obj f :: xs =>
    (match process_object op tp fg value adj (.obj f) with
     | ⟨.error e, st⟩ => ⟨.error e, st :: xs⟩
     | ⟨.ok (ro, mv), st⟩ =>
       match process_list op tp fg value adj xs with
       | ⟨.error e, sts⟩ => ⟨.error e, st :: sts⟩
       | ⟨.ok (r2, mv2), sts⟩ =>
         ⟨.ok ((match ro with | some o => o :: r2 | none => r2), mv ++ mv2),
          st :: sts⟩)
  | .arr il :: xs =>
    (match process_list op tp fg value adj il with
     | ⟨.error e, istates⟩ => ⟨.error e, .arr istates :: xs⟩
     | ⟨.ok (nl, mv), istates⟩ =>
       match process_list op tp fg value adj xs with
       | ⟨.error e, sts⟩ => ⟨.error e, .arr istates :: sts⟩
       | ⟨.ok (r2, mv2), sts⟩ =>
         ⟨.ok ((match nl with | [] => r2 | _ => .arr nl :: r2), mv ++ mv2),
          .arr istates :: sts⟩)
  | s :: xs =>
    match process_list op tp fg value adj xs with
    | ⟨.error e, sts⟩ => ⟨.error e, s :: sts⟩
    | ⟨.ok (r2, mv2), sts⟩ => ⟨.ok (s :: r2, mv2), s :: sts⟩

end

/-- `str(node.get('id'))`: the string rendering of a node's id, `None`
(hence `"None"`) when the key is absent. -/
def idStrOf (f : List (String × Value)) : String :=
  pyStr ((lookupV f "id").getD .null)

/-- Lines 85-90: create the target's `child_nodes` list when missing, then
`extend` it with the moved nodes.  A present non-list `child_nodes` has no
`extend` attribute and raises. -/
def extendChildren (f : List (String × Value)) (newc : List Value) :
    Except PyErr (List (String × Value)) :=
  match lookupV f "child_nodes" with
  | none => .ok (f ++ [("child_nodes", .arr newc)])
  | some (.arr cl) => .ok (setKey f "child_nodes" (.arr (cl ++ newc)))
  | some _ => .error .attributeError

mutual

/-- `find_and_update_target` (lines 81-94) over a node list: the first node
whose `str(node.get('id'))` equals the target string receives the moved
nodes; otherwise its `child_nodes` (when the key is present) is searched
recursively before moving to the next sibling.  Iterated items without a
`.get` attribute (non-dicts) raise AttributeError. -/
def find_and_update_target (tid : String) (newc : List Value) :
    List Value → Except PyErr (List Value × Bool)
  | [] => .ok ([], false)
  | .obj f :: rest =>
    if idStrOf f = tid then
      match extendChildren f newc with
      | .error e => .error e
      | .ok f' => .ok (.obj f' :: rest, true)
    else
      (match find_and_update_targetF tid newc f with
       | .error e => .error e
       | .ok (f', true) => .ok (.obj f' :: rest, true)
       | .ok (_, false) =>
         match find_and_update_target tid newc rest with
         | .error e => .error e
         | .ok (rest', b) => .ok (.obj f :: rest', b))
  | _ :: _ => .error .attributeError

/-- The recursion of `find_and_update_target` into a node's `child_nodes`
value: an array is searched; iterating a non-empty string or dict yields
items without `.get` (AttributeError); empty iterables search nothing;
non-iterables raise TypeError. -/
def find_and_update_targetC (tid : String) (newc : List Value) :
    Value → Except PyErr (Value × Bool)
  | .arr cl =>
    (match find_and_update_target tid newc cl with
     | .error e => .error e
     | .ok (cl', b) => .ok (.arr cl', b))
  | .str s =>
    if s.isEmpty then .ok (.str s, false)
    else .error .attributeError
  | .obj [] => .ok (.obj [], false)
  | .obj (_ :: _) => .error .attributeError
  | _ => .error .typeError

/-- Locates the first `child_nodes` entry of a field list and searches its
value (the line 91-93 `if 'child_nodes' in node:` recursion). -/
def find_and_update_targetF (tid : String) (newc : List Value) :
    List (String × Value) → Except PyErr (List (String × Value) × Bool)
  | [] => .ok ([], false)
  | (k, cv) :: rest =>
    if k = "child_nodes" then
      match find_and_update_targetC tid newc cv with
      | .error e => .error e
      | .ok (cv', b) => .ok ((k, cv') :: rest, b)
    else
      match find_and_update_targetF tid newc rest with
      | .error e => .error e
      | .ok (rest', b) => .ok ((k, cv) :: rest', b)

end

/-- Python `'root_nodes' in data` for an arbitrary value: key test on dicts,
`==`-membership on lists, substring test on strings, TypeError otherwise. -/
def containsKey (data : Value) (key : String) : Except PyErr Bool :=
  match data with
  | .obj f => .ok (hasKey f key)
  | .arr l => .ok (l.any (fun e => pyEq e (.str key)))
  | .str s => .ok (decide (key.data <:+: s.data))
  | _ => .error .typeError

/-- Result of `apply_operation`: the returned document (`none` models a
literal Python `None` return from generic mode) and the state the caller's
document object has been left in, mutation included. -/
structure ApplyRes where
  ret : Except PyErr (Option Value)
  st : Value

/-- `apply_operation` (lines 69-188).  Tree mode when the document has a
`root_nodes` key: rewrite that list in place, then for MOVE with collected
nodes run the reattachment pass; otherwise generic mode: `process_object`
on the document itself.  The `st` component records the caller-visible
state of the document after the call, also when an error escapes mid-walk
(the in-place `child_nodes` updates already performed are kept, the
top-level `root_nodes` assignment happens only on success of the whole
walk, and the moved-node reattachment mutates nothing when it fails). -/
def apply_operation (op : Operation) (tp : String) (fg : FilterGroup)
    (value : Value) (adj : ℚ) (data : Value) : ApplyRes :=
  match containsKey data "root_nodes" with
  | .error e => ⟨.error e, data⟩
  | .ok true =>
    (match data with
     | .obj f =>
       (match lookupV f "root_nodes" with
        | some rv =>
          (match childWalk op tp fg value adj rv with
           | ⟨.error e, st⟩ => ⟨.error e, .obj (setKey f "root_nodes" st)⟩
           | ⟨.ok (newl, mv), _⟩ =>
             if op = .MOVE && !mv.isEmpty then
               match find_and_update_target tp mv newl with
               | .error e => ⟨.error e, .obj (setKey f "root_nodes" (.arr newl))⟩
               | .ok (nl2, _found) =>
                 ⟨.ok (some (.obj (setKey f "root_nodes" (.arr nl2)))),
                  .obj (setKey f "root_nodes" (.arr nl2))⟩
             else
               ⟨.ok (some (.obj (setKey f "root_nodes" (.arr newl)))),
                .obj (setKey f "root_nodes" (.arr newl))⟩)
        | none => ⟨.error .keyError, .obj f⟩)
     | other => ⟨.error .typeError, other⟩)
  | .ok false =>
    match process_object op tp fg value adj data with
    | ⟨.error e, st⟩ => ⟨.error e, st⟩
    | ⟨.ok (ro, _mv), st⟩ => ⟨.ok ro, st⟩

mutual

/-- Node count of a value: each dict counts one plus the count of its
(first) `child_nodes` entry; arrays count their elements; scalars count 0.
Only dicts reachable through `child_nodes` are counted, matching what the
tree walk visits. -/
def nsize : Value → Nat
  | .obj f => 1 + nsizeF f
  | .arr l => nsizeL l
  | _ => 0

/-- Node count contributed by a field list: its first `child_nodes` entry. -/
def nsizeF : List (String × Value) → Nat
  | [] => 0
  | (k, v) :: rest => if k = "child_nodes" then nsize v else nsizeF rest

/-- Node count of a list of values. -/
def nsizeL : List Value → Nat
  | [] => 0
  | x :: xs => nsize x + nsizeL xs

end

mutual

/-- Well-formedness used by the conservation results: no dict anywhere in
the walked tree has a dict as its `child_nodes` value (Python would iterate
its keys, silently replacing a subtree by a list of strings).  The spec's
document model is stricter (`child_nodes` is always an array of nodes);
this is the weakest condition under which node counting behaves. -/
def wfV : Value → Bool
  | .obj f => wfF f
  | .arr l => wfL l
  | _ => true

/-- Well-formedness of a `child_nodes` value: anything but a dict, arrays
recursively. -/
def wfC : Value → Bool
  | .obj _ => false
  | .arr l => wfL l
  | _ => true

/-- Well-formedness of a field list: constrains only the `child_nodes`
entry. -/
def wfF : List (String × Value) → Bool
  | [] => true
  | (k, v) :: rest => if k = "child_nodes" then wfC v else wfF rest

/-- Well-formedness of every element of a list. -/
def wfL : List Value → Bool
  | [] => true
  | x :: xs => wfV x && wfL xs

end

mutual

/-- Dicts reachable by `find_and_update_target` starting from one node:
the node itself, then recursively the elements of its `child_nodes` array
(the only successfully traversable non-empty iterable). -/
def reach1 : Value → List Value
  | .obj f => .obj f :: reachF f
  | _ => []

/-- Dicts reachable through a `child_nodes` value. -/
def reachC : Value → List Value
  | .arr l => reachL l
  | _ => []

/-- Dicts reachable through a field list's `child_nodes` entry. -/
def reachF : List (String × Value) → List Value
  | [] => []
  | (k, v) :: rest => if k = "child_nodes" then reachC v else reachF rest

/-- Dicts reachable from a node list. -/
def reachL : List Value → List Value
  | [] => []
  | x :: xs => reach1 x ++ reachL xs

end

mutual

/-- Dicts the tree walk visits inside one list item: dict items and their
`child_nodes` descendants, plus dicts inside nested arrays (which
`process_list` walks recursively, unlike `find_and_update_target`). -/
def wreach1 : Value → List Value
  | .obj f => .obj f :: wreachF f
  | .arr l => wreachL l
  | _ => []

/-- Dicts the walk visits through a `child_nodes` value. -/
def wreachC : Value → List Value
  | .arr l => wreachL l
  | _ => []

/-- Dicts the walk visits through a field list's `child_nodes` entry. -/
def wreachF : List (String × Value) → List Value
  | [] => []
  | (k, v) :: rest => if k = "child_nodes" then wreachC v else wreachF rest

/-- Dicts the walk visits in a list. -/
def wreachL : List Value → List Value
  | [] => []
  | x :: xs => wreach1 x ++ wreachL xs

end

/-- The `nodes_to_move` list accumulated over a whole root list (empty when
the walk raises). -/
def collectMoved (op : Operation) (tp : String) (fg : FilterGroup)
    (value : Value) (adj : ℚ) (l : List Value) : List Value :=
  match (process_list op tp fg value adj l).ret with
  | .ok (_, mv) => mv
  | .error _ => []

/-- Total node count of a document: the count of its `root_nodes` entry. -/
def docCount (d : Value) : Nat :=
  match d with
  | .obj f =>
    (match lookupV f "root_nodes" with
     | some rv => nsize rv
     | none => 0)
  | _ => 0

/-- The nodes of a document's tree, as `find_and_update_target` can reach
them. -/
def docReach (d : Value) : List Value :=
  match d with
  | .obj f =>
    (match lookupV f "root_nodes" with
     | some (.arr l) => reachL l
     | _ => [])
  | _ => []

/-! ### Basic lemmas about the dict model -/

theorem lookupV_setKey_ne (f : List (String × Value)) (k key : String) (nv : Value)
    (h : key ≠ k) : lookupV (setKey f k nv) key = lookupV f key := by
  induction f with
  | nil => rfl
  | cons kv rest ih =>
    obtain ⟨k', v'⟩ := kv
    by_cases hk : k' = k
    · subst hk
      simp [setKey, lookupV, Ne.symm h]
    · simp only [setKey, if_neg hk, lookupV]
      by_cases hk2 : k' = key
      · simp [hk2]
      · simp [hk2, ih]

theorem lookupV_setKey_eq (f : List (String × Value)) (k : String) (nv : Value)
    (h : hasKey f k = true) : lookupV (setKey f k nv) k = some nv := by
  induction f with
  | nil => simp [hasKey, lookupV] at h
  | cons kv rest ih =>
    obtain ⟨k', v'⟩ := kv
    by_cases hk : k' = k
    · simp [setKey, hk, lookupV]
    · simp only [hasKey, lookupV, if_neg hk] at h
      simp [setKey, hk, lookupV, ih h]

theorem setKey_lookup_self (f : List (String × Value)) (k : String) (v : Value)
    (h : lookupV f k = some v) : setKey f k v = f := by
  induction f with
  | nil => rfl
  | cons kv rest ih =>
    obtain ⟨k', v'⟩ := kv
    by_cases hk : k' = k
    · subst hk
      have h' : v' = v := by simpa [lookupV] using h
      simp [setKey, h']
    · simp only [lookupV, if_neg hk] at h
      simp [setKey, hk, ih h]

theorem lookupV_append (f g : List (String × Value)) (k : String) :
    lookupV (f ++ g) k =
      (match lookupV f k with
       | some v => some v
       | none => lookupV g k) := by
  induction f with
  | nil => simp [lookupV]
  | cons kv rest ih =>
    obtain ⟨k', v'⟩ := kv
    by_cases hk : k' = k
    · simp [lookupV, hk]
    · simp [lookupV, hk, ih]

theorem hasKey_of_lookup (f : List (String × Value)) (k : String) (v : Value)
    (h : lookupV f k = some v) : hasKey f k = true := by
  simp [hasKey, h]

theorem nsizeL_append (a b : List Value) : nsizeL (a ++ b) = nsizeL a + nsizeL b := by
  induction a with
  | nil => simp [nsizeL]
  | cons x xs ih => simp [nsizeL, ih]; ring

theorem reachL_append (a b : List Value) : reachL (a ++ b) = reachL a ++ reachL b := by
  induction a with
  | nil => simp [reachL]
  | cons x xs ih => simp [reachL, ih]

/-! ### C4: order comparison against an incomparable literal raises -/

/-- C4.  The claim says `Filter.evaluate` with GREATER_THAN or LESS_THAN on
values that are not order-comparable "does not crash and returns false".
The code (line 46) evaluates `target > self.value` unguarded, and CPython
raises TypeError when, for example, a stored string is compared with a
numeric literal; nothing catches it.  At the concrete failing input the
embedded evaluator yields the TypeError, not `ok false`. -/
theorem C4_incomparable_raises :
    Filter.evaluate ⟨"x", .GREATER_THAN, .int 5⟩ [("x", .str "abc")]
        = .error .typeError ∧
      Filter.evaluate ⟨"x", .LESS_THAN, .int 5⟩ [("x", .str "abc")]
        ≠ .ok false := by
  constructor
  · rfl
  · intro h
    simp [Filter.evaluate, lookupV, pyLt] at h

/-! ### C7: XOR means exactly one true -/

/-- C7.  `FilterGroup.evaluate` with the XOR combinator returns true exactly
when exactly one of the group's predicates evaluated true (`sum(results) ==
1`, line 66), for any number of predicates — not the odd-count
generalization. -/
theorem C7_xor_exactly_one (g : FilterGroup) (o : List (String × Value))
    (hx : g.logical_op = .XOR) :
    FilterGroup.evaluate g o = .ok true ↔
      ∃ bs, evalFilters g.filters o = .ok bs ∧ bs.count true = 1 := by
  unfold FilterGroup.evaluate
  cases hev : evalFilters g.filters o with
  | error e =>
    simp only [hx]
    constructor
    · intro h; cases h
    · rintro ⟨bs, hbs, -⟩
      simp at hbs
  | ok bs =>
    simp only [hx]
    constructor
    · intro h
      refine ⟨bs, rfl, ?_⟩
      have := congrArg (fun r => match r with
        | Except.ok b => b
        | Except.error _ => false) h
      simpa using this
    · rintro ⟨bs', hbs', hc⟩
      cases hbs'
      simp [hc]

/-- Witness for C7 at a concrete input: a three-predicate XOR group where
exactly one predicate holds evaluates to true. -/
theorem C7_xor_exactly_one_witness :
    FilterGroup.evaluate
        ⟨[⟨"a", .EQUALS, .int 1⟩, ⟨"b", .EQUALS, .int 2⟩, ⟨"c", .EQUALS, .int 9⟩], .XOR⟩
        [("a", .int 1), ("b", .int 5), ("c", .int 7)] = .ok true :=
  (C7_xor_exactly_one _ _ rfl).mpr ⟨[true, false, false], by rfl, by decide⟩

/-! ### C6: DIVIDE with effective divisor zero -/

/-- Evaluation of `float("5")` (helper for concrete inputs). -/
theorem parsePyFloat_five : parsePyFloat "5" = some 5 := by
  have h : parsePyFloat "5" = some (1 * decimalVal ['5'] [] 0) := rfl
  have hd : digitsVal ['5'] = 5 := rfl
  have hd0 : digitsVal [] = 0 := rfl
  rw [h]
  norm_num [decimalVal, hd, hd0]

/-- C6 counterexample.  The claim says DIVIDE with effective divisor zero
"leaves the matched field's value unchanged".  Line 100 has already replaced
a numeric-string current value by its float before the zero test on line 112
returns it, so the field changes from the string `"5"` to the float `5.0`. -/
theorem C6_divzero_coerces_cex :
    (apply_operation .DIVIDE "hp" ⟨[⟨"m", .EQUALS, .int 1⟩], .AND⟩ (.int 0) 1
        (.obj [("root_nodes", .arr [.obj [("m", .int 1), ("hp", .str "5")]])])).ret
      = .ok (some (.obj [("root_nodes",
          .arr [.obj [("m", .int 1), ("hp", .float 5)]])])) ∧
    Value.float 5 ≠ Value.str "5" := by
  constructor
  · simp [apply_operation, containsKey, hasKey, lookupV, childWalk, process_list,
      process_object, fieldsWalk, afterChildren, FilterGroup.evaluate, evalFilters,
      Filter.evaluate, pyEq, processValue, parsePyFloat_five, processValueCore,
      operandTimesAdj, numQ, setKey]
  · intro h; cases h

/-- C6 (amended).  DIVIDE whose numeric operand times the adjustment is zero
never raises: a non-numeric-string current value is returned unchanged, any
other current value is returned as already coerced — verbatim except that a
numeric string has become the parsed float (lines 96-114). -/
theorem C6_divzero_noop (value : Value) (adj : ℚ) (cur : Value) (q : ℚ)
    (hq : numQ value = some q) (h0 : q * adj = 0) :
    (∀ s x, cur = .str s → parsePyFloat s = some x →
        processValue .DIVIDE value adj cur = .ok (.float x)) ∧
    (∀ s, cur = .str s → parsePyFloat s = none →
        processValue .DIVIDE value adj cur = .ok (.str s)) ∧
    ((∀ s, cur ≠ .str s) → processValue .DIVIDE value adj cur = .ok cur) := by
  refine ⟨?_, ?_, ?_⟩
  · rintro s x rfl hx
    simp [processValue, hx, processValueCore, operandTimesAdj, hq, h0]
  · rintro s rfl hx
    simp [processValue, hx, isArith]
  · intro hs
    have : processValue .DIVIDE value adj cur = processValueCore .DIVIDE value adj cur := by
      cases cur with
      | str s => exact absurd rfl (hs s)
      | _ => rfl
    rw [this]
    simp [processValueCore, operandTimesAdj, hq, h0]

/-- Witness for C6 (amended) at operand `0`, adjustment `1`, current value
the numeric string `"5"`: no error, result is the float `5.0`. -/
theorem C6_divzero_noop_witness :
    processValue .DIVIDE (.int 0) 1 (.str "5") = .ok (.float 5) :=
  (C6_divzero_noop (.int 0) 1 (.str "5") 0 rfl (by simp)).1 "5" 5 rfl parsePyFloat_five

/-! ### C5: arithmetic on a non-numeric current value -/

/-- C5 counterexample.  The claim says a matched node whose target field is
non-numeric (and not a numeric-looking string) is left unchanged and the
walk continues without raising.  That holds only for strings: the line 98
guard is `isinstance(current_value, str)`, so an ADD on a `None` current
value reaches `None + operand` and raises TypeError. -/
theorem C5_nonnumeric_raises_cex :
    (apply_operation .ADD "hp" ⟨[⟨"m", .EQUALS, .int 1⟩], .AND⟩ (.int 1) 1
        (.obj [("root_nodes", .arr [.obj [("m", .int 1), ("hp", .null)]])])).ret
      = .error .typeError := rfl

/-- C5 (amended).  For an arithmetic operation on a matched node whose
current value is a string that does not parse as a float, the field is
returned unchanged, nothing is raised, and the moved-node accumulator and
the rest of the node are exactly those of the ordinary successful path. -/
theorem C5_nonnumeric_string_noop (op : Operation) (tp : String) (fg : FilterGroup)
    (value : Value) (adj : ℚ) (f f1 : List (String × Value)) (mv : List Value)
    (s : String)
    (harith : isArith op = true)
    (hfw : (fieldsWalk op tp fg value adj f).ret = .ok (f1, mv))
    (hmatch : FilterGroup.evaluate fg f1 = .ok true)
    (hcur : lookupV f1 tp = some (.str s))
    (hnum : parsePyFloat s = none) :
    (process_object op tp fg value adj (.obj f)).ret = .ok (some (.obj f1), mv) := by
  have hpv : processValue op value adj (.str s) = .ok (.str s) := by
    simp [processValue, hnum, harith]
  rcases hw : fieldsWalk op tp fg value adj f with ⟨ret, stf⟩
  rw [hw] at hfw
  simp only at hfw
  subst hfw
  have hset := setKey_lookup_self f1 tp (.str s) hcur
  cases op with
  | ADD => simp [process_object, hw, afterChildren, hmatch, hcur, hpv, hset]
  | MULTIPLY => simp [process_object, hw, afterChildren, hmatch, hcur, hpv, hset]
  | DIVIDE => simp [process_object, hw, afterChildren, hmatch, hcur, hpv, hset]
  | SCALE => simp [process_object, hw, afterChildren, hmatch, hcur, hpv, hset]
  | _ => simp [isArith] at harith

/-- Witness for C5 (amended): ADD on a node whose `hp` field is the
non-numeric string `"full"` succeeds and leaves the node unchanged. -/
theorem C5_nonnumeric_string_noop_witness :
    (process_object .ADD "hp" ⟨[⟨"m", .EQUALS, .int 1⟩], .AND⟩ (.int 1) 1
        (.obj [("m", .int 1), ("hp", .str "full")])).ret
      = .ok (some (.obj [("m", .int 1), ("hp", .str "full")]), []) :=
  C5_nonnumeric_string_noop .ADD "hp" ⟨[⟨"m", .EQUALS, .int 1⟩], .AND⟩ (.int 1) 1
    [("m", .int 1), ("hp", .str "full")] [("m", .int 1), ("hp", .str "full")] []
    "full" rfl rfl rfl rfl rfl

/-! ### C2: REMOVE processes children before the node's own match -/

/-- C2 counterexample.  The claim says a node's own match is checked before
its children are recursed into, and the children of a matching node are
never evaluated against the filter.  Lines 126-128 process children first:
here the root node matches the REMOVE filter (`kill == 1` of the OR group),
yet the call raises, because its child was evaluated first and the child's
`x > 5` comparison on a string raises. -/
theorem C2_children_first_cex :
    (apply_operation .REMOVE "f"
        ⟨[⟨"kill", .EQUALS, .int 1⟩, ⟨"x", .GREATER_THAN, .int 5⟩], .OR⟩ (.null) 1
        (.obj [("root_nodes", .arr [.obj [("kill", .int 1),
          ("child_nodes", .arr [.obj [("x", .str "bad")]])]])])).ret
      = .error .typeError ∧
    FilterGroup.evaluate
        ⟨[⟨"kill", .EQUALS, .int 1⟩, ⟨"x", .GREATER_THAN, .int 5⟩], .OR⟩
        [("kill", .int 1), ("child_nodes", .arr [.obj [("x", .str "bad")]])]
      = .ok true :=
  ⟨rfl, rfl⟩

/-- C2 (amended).  Under REMOVE the children of a node are recursed into and
transformed before the node's own match is evaluated: an error raised while
processing the children propagates even when the node itself would match,
and when child processing succeeds a matching node is dropped entirely
(returns `None`), discarding its processed subtree. -/
theorem C2_remove_after_children (tp : String) (fg : FilterGroup)
    (value : Value) (adj : ℚ) (f : List (String × Value)) :
    (∀ e, (fieldsWalk .REMOVE tp fg value adj f).ret = .error e →
        (process_object .REMOVE tp fg value adj (.obj f)).ret = .error e) ∧
    (∀ f1 mv, (fieldsWalk .REMOVE tp fg value adj f).ret = .ok (f1, mv) →
        FilterGroup.evaluate fg f1 = .ok true →
        (process_object .REMOVE tp fg value adj (.obj f)).ret = .ok (none, mv)) := by
  constructor
  · intro e he
    rcases hw : fieldsWalk .REMOVE tp fg value adj f with ⟨ret, stf⟩
    rw [hw] at he
    simp only at he
    subst he
    simp [process_object, hw]
  · intro f1 mv hok hmatch
    rcases hw : fieldsWalk .REMOVE tp fg value adj f with ⟨ret, stf⟩
    rw [hw] at hok
    simp only at hok
    subst hok
    simp [process_object, hw, afterChildren, hmatch]

/-- Witness for C2 (amended), second part: a node matching the REMOVE filter
whose child walk succeeds is dropped with its whole (already processed)
subtree. -/
theorem C2_remove_after_children_witness :
    (process_object .REMOVE "f" ⟨[⟨"kill", .EQUALS, .int 1⟩], .AND⟩ (.null) 1
        (.obj [("kill", .int 1), ("child_nodes", .arr [.obj [("id", .int 7)]])])).ret
      = .ok (none, []) :=
  (C2_remove_after_children "f" ⟨[⟨"kill", .EQUALS, .int 1⟩], .AND⟩ (.null) 1
      [("kill", .int 1), ("child_nodes", .arr [.obj [("id", .int 7)]])]).2
    [("kill", .int 1), ("child_nodes", .arr [.obj [("id", .int 7)]])] [] rfl rfl

/-! ### C9: phase_lanes is never touched in tree mode -/

/-- C9.  In tree mode (document has a `root_nodes` key) the engine only
reassigns the `root_nodes` entry (lines 178 and 183-184 mutate nodes inside
that list); the document's `phase_lanes` entry is left exactly as it was,
both in the returned document and in the caller-visible state, whether the
call succeeds or raises. -/
theorem C9_phase_lanes_untouched (op : Operation) (tp : String) (fg : FilterGroup)
    (value : Value) (adj : ℚ) (f : List (String × Value))
    (hroot : hasKey f "root_nodes" = true) :
    (∀ d', (apply_operation op tp fg value adj (.obj f)).ret = .ok (some d') →
        ∃ g, d' = .obj g ∧ lookupV g "phase_lanes" = lookupV f "phase_lanes") ∧
    (∃ g, (apply_operation op tp fg value adj (.obj f)).st = .obj g ∧
        lookupV g "phase_lanes" = lookupV f "phase_lanes") := by
  have hne : ("phase_lanes" : String) ≠ "root_nodes" := by decide
  have hpres : ∀ x, lookupV (setKey f "root_nodes" x) "phase_lanes"
      = lookupV f "phase_lanes" := fun x => lookupV_setKey_ne f "root_nodes" "phase_lanes" x hne
  rcases hl : lookupV f "root_nodes" with - | rv
  · rw [hasKey, hl] at hroot
    simp at hroot
  · rcases hw : childWalk op tp fg value adj rv with ⟨ret, st⟩
    cases ret with
    | error e =>
      constructor
      · intro d' hd'
        simp [apply_operation, containsKey, hroot, hl, hw] at hd'
      · exact ⟨setKey f "root_nodes" st, by simp [apply_operation, containsKey, hroot, hl, hw], hpres _⟩
    | ok p =>
      rcases p with ⟨newl, mv⟩
      by_cases hmove : (op = Operation.MOVE && !mv.isEmpty) = true
      · rcases hf : find_and_update_target tp mv newl with e | ⟨nl2, found⟩
        · constructor
          · intro d' hd'
            simp [apply_operation, containsKey, hroot, hl, hw, hmove, hf] at hd'
          · exact ⟨setKey f "root_nodes" (.arr newl),
              by simp [apply_operation, containsKey, hroot, hl, hw, hmove, hf], hpres _⟩
        · constructor
          · intro d' hd'
            simp only [apply_operation, containsKey, hroot, hl, hw, hmove, hf] at hd'
            simp only [if_true] at hd'
            rcases hd'.symm with h
            exact ⟨setKey f "root_nodes" (.arr nl2), by
              cases h
              exact ⟨rfl, hpres _⟩⟩
          · exact ⟨setKey f "root_nodes" (.arr nl2),
              by simp [apply_operation, containsKey, hroot, hl, hw, hmove, hf], hpres _⟩
      · constructor
        · intro d' hd'
          simp only [apply_operation, containsKey, hroot, hl, hw, hmove] at hd'
          simp only [if_false, Bool.false_eq_true] at hd'
          exact ⟨setKey f "root_nodes" (.arr newl), by
            cases hd'
            exact ⟨rfl, hpres _⟩⟩
        · exact ⟨setKey f "root_nodes" (.arr newl),
            by simp [apply_operation, containsKey, hroot, hl, hw, hmove], hpres _⟩

/-- Witness for C9 at a concrete document with a `phase_lanes` entry: REMOVE
of the only root node keeps `phase_lanes` intact. -/
theorem C9_phase_lanes_untouched_witness :
    (apply_operation .REMOVE "f" ⟨[⟨"kill", .EQUALS, .int 1⟩], .AND⟩ (.null) 1
        (.obj [("root_nodes", .arr [.obj [("kill", .int 1)]]),
               ("phase_lanes", .arr [.obj [("id", .int 9)]])])).ret
      = .ok (some (.obj [("root_nodes", .arr []),
               ("phase_lanes", .arr [.obj [("id", .int 9)]])])) ∧
    lookupV [("root_nodes", Value.arr []), ("phase_lanes", .arr [.obj [("id", .int 9)]])]
        "phase_lanes"
      = lookupV [("root_nodes", .arr [.obj [("kill", .int 1)]]),
               ("phase_lanes", .arr [.obj [("id", .int 9)]])] "phase_lanes" := by
  constructor
  · rfl
  · have h := ((C9_phase_lanes_untouched .REMOVE "f" ⟨[⟨"kill", .EQUALS, .int 1⟩], .AND⟩
      (.null) 1 [("root_nodes", .arr [.obj [("kill", .int 1)]]),
               ("phase_lanes", .arr [.obj [("id", .int 9)]])] rfl).1
      (.obj [("root_nodes", .arr []), ("phase_lanes", .arr [.obj [("id", .int 9)]])]) rfl)
    rcases h with ⟨g, hg, hp⟩
    cases hg
    exact hp

/-! ### C8: generic mode only recurses into child_nodes -/

theorem lookupV_append_single_ne (f : List (String × Value)) (tp k : String)
    (v : Value) (hk : k ≠ tp) :
    lookupV (f ++ [(tp, v)]) k = lookupV f k := by
  rw [lookupV_append]
  cases h : lookupV f k with
  | some w => rfl
  | none => simp [lookupV, Ne.symm hk]

/-- The in-place child walk only rewrites the `child_nodes` entry: every
other key keeps its value. -/
theorem fieldsWalk_lookup_ne (op : Operation) (tp : String) (fg : FilterGroup)
    (value : Value) (adj : ℚ) (f f1 : List (String × Value)) (mv : List Value)
    (k : String) (hk : k ≠ "child_nodes")
    (h : (fieldsWalk op tp fg value adj f).ret = .ok (f1, mv)) :
    lookupV f1 k = lookupV f k := by
  induction f generalizing f1 mv with
  | nil =>
    simp only [fieldsWalk] at h
    cases h
    rfl
  | cons kv rest ih =>
    obtain ⟨k', cv⟩ := kv
    by_cases hck : k' = "child_nodes"
    · subst hck
      rcases hw : childWalk op tp fg value adj cv with ⟨ret, st⟩
      cases ret with
      | error e => simp [fieldsWalk, hw] at h
      | ok p =>
        rcases p with ⟨nl, mv'⟩
        simp only [fieldsWalk, hw, if_pos rfl] at h
        cases h
        simp [lookupV, Ne.symm hk]
    · rcases hw : fieldsWalk op tp fg value adj rest with ⟨ret, strest⟩
      cases ret with
      | error e => simp [fieldsWalk, hck, hw] at h
      | ok p =>
        rcases p with ⟨nrest, mv'⟩
        simp only [fieldsWalk, hw, if_neg hck] at h
        cases h
        by_cases hkk : k' = k
        · simp [lookupV, hkk]
        · simp only [lookupV, if_neg hkk]
          exact ih _ _ (by rw [hw])

/-- The post-filter step never touches keys other than the target property. -/
theorem afterChildren_lookup_ne (op : Operation) (tp : String) (fg : FilterGroup)
    (value : Value) (adj : ℚ) (f1 g : List (String × Value)) (mv mv2 : List Value)
    (h : (afterChildren op tp fg value adj f1 mv).ret = .ok (some (.obj g), mv2))
    (k : String) (hk : k ≠ tp) :
    lookupV g k = lookupV f1 k := by
  unfold afterChildren at h
  split at h
  · cases h
  · injection h with h1
    injection h1 with h2 h3
    injection h2 with h4
    injection h4 with h5
    subst h5
    rfl
  · split at h
    · injection h with h1
      injection h1 with h2 h3
      cases h2
    · injection h with h1
      injection h1 with h2 h3
      cases h2
    · split at h
      · injection h with h1
        injection h1 with h2 h3
        injection h2 with h4
        injection h4 with h5
        subst h5
        rfl
      · injection h with h1
        injection h1 with h2 h3
        injection h2 with h4
        injection h4 with h5
        subst h5
        exact lookupV_append_single_ne f1 tp k value hk
    · split at h
      · split at h
        · cases h
        · injection h with h1
          injection h1 with h2 h3
          injection h2 with h4
          injection h4 with h5
          subst h5
          exact lookupV_setKey_ne f1 tp k _ hk
      · injection h with h1
        injection h1 with h2 h3
        injection h2 with h4
        injection h4 with h5
        subst h5
        rfl

/-- C8 counterexample.  The claim says generic mode recursively rewrites
every nested mapping regardless of which key it sits under.  Here the
document has no `root_nodes` key and its nested mapping under `"foo"`
matches the REMOVE filter, yet the returned document is unchanged: the walk
only recurses into `child_nodes` (line 127), so mappings under other keys
are never visited. -/
theorem C8_generic_not_all_keys_cex :
    (apply_operation .REMOVE "f" ⟨[⟨"kill", .EQUALS, .int 1⟩], .AND⟩ (.null) 1
        (.obj [("foo", .obj [("kill", .int 1)])])).ret
      = .ok (some (.obj [("foo", .obj [("kill", .int 1)])])) ∧
    FilterGroup.evaluate ⟨[⟨"kill", .EQUALS, .int 1⟩], .AND⟩ [("kill", .int 1)]
      = .ok true :=
  ⟨rfl, rfl⟩

/-- C8 (amended).  Without a `root_nodes` key, `apply_operation` is exactly
one `process_object` call on the document itself: the document's own match
is evaluated, only its `child_nodes` entry (when present) is recursed into,
and every entry under any other key (except the operation's own target
property) is returned verbatim, mappings included. -/
theorem C8_generic_only_child_nodes (op : Operation) (tp : String) (fg : FilterGroup)
    (value : Value) (adj : ℚ) (f g : List (String × Value))
    (hnr : hasKey f "root_nodes" = false)
    (hok : (apply_operation op tp fg value adj (.obj f)).ret = .ok (some (.obj g)))
    (k : String) (hk1 : k ≠ "child_nodes") (hk2 : k ≠ tp) :
    lookupV g k = lookupV f k := by
  rcases hpo : process_object op tp fg value adj (.obj f) with ⟨ret, st⟩
  obtain ⟨mv2, hret⟩ : ∃ mv2, ret = .ok (some (.obj g), mv2) := by
    simp only [apply_operation, containsKey, hnr, Bool.false_eq_true, if_false, hpo] at hok
    cases ret with
    | error e => simp at hok
    | ok p =>
      rcases p with ⟨ro, mvr⟩
      simp only at hok
      cases hok
      exact ⟨mvr, rfl⟩
  subst hret
  rcases hfw : fieldsWalk op tp fg value adj f with ⟨retf, stf⟩
  cases retf with
  | error e =>
    simp only [process_object, hfw] at hpo
    injection hpo with h1 h2
    cases h1
  | ok p =>
    rcases p with ⟨f1, mv⟩
    simp only [process_object, hfw] at hpo
    have hac : (afterChildren op tp fg value adj f1 mv).ret
        = .ok (some (.obj g), mv2) := by rw [hpo]
    calc lookupV g k = lookupV f1 k :=
          afterChildren_lookup_ne op tp fg value adj f1 g mv _ hac k hk2
      _ = lookupV f k := fieldsWalk_lookup_ne op tp fg value adj f f1 mv k hk1 (by rw [hfw])

/-- Witness for C8 (amended): a CHANGE call in generic mode leaves the
`"meta"` entry of the document untouched. -/
theorem C8_generic_only_child_nodes_witness :
    lookupV [("kill", Value.int 9), ("meta", .obj [("a", .int 1)])] "meta"
      = lookupV [("kill", Value.int 1), ("meta", .obj [("a", .int 1)])] "meta" :=
  C8_generic_only_child_nodes .CHANGE "kill" ⟨[⟨"kill", .EQUALS, .int 1⟩], .AND⟩
    (.int 9) 1 [("kill", .int 1), ("meta", .obj [("a", .int 1)])]
    [("kill", .int 9), ("meta", .obj [("a", .int 1)])]
    rfl rfl "meta" (by decide) (by decide)

/-! ### C10: the MOVE target is located by string rendering of ids -/

/-- The node count through a field list is the count of the first
`child_nodes` value. -/
theorem nsizeF_lookup (f : List (String × Value)) :
    nsizeF f =
      (match lookupV f "child_nodes" with
       | some v => nsize v
       | none => 0) := by
  induction f with
  | nil => rfl
  | cons kv rest ih =>
    obtain ⟨k, v⟩ := kv
    by_cases hk : k = "child_nodes"
    · simp [nsizeF, lookupV, hk]
    · simp [nsizeF, lookupV, hk, ih]

/-- Appending the moved nodes to the target's child list grows its field
count by exactly the moved nodes' count. -/
theorem extendChildren_nsizeF (f f' : List (String × Value)) (newc : List Value)
    (h : extendChildren f newc = .ok f') :
    nsizeF f' = nsizeF f + nsizeL newc := by
  unfold extendChildren at h
  cases hl : lookupV f "child_nodes" with
  | none =>
    rw [hl] at h
    injection h with h1
    subst h1
    rw [nsizeF_lookup, nsizeF_lookup, hl, lookupV_append, hl]
    simp [lookupV, nsize]
  | some cv =>
    rw [hl] at h
    cases cv with
    | arr cl =>
      injection h with h1
      subst h1
      rw [nsizeF_lookup, nsizeF_lookup, hl,
        lookupV_setKey_eq f "child_nodes" _ (hasKey_of_lookup f _ _ hl)]
      simp [nsize, nsizeL_append]
    | null => cases h
    | bool b => cases h
    | int n => cases h
    | float q => cases h
    | str s => cases h
    | obj g => cases h

/-- Characterization of a successful `find_and_update_target` run: it
reports `True` exactly when some reachable node's `str(node.get('id'))`
equals the target string; on `False` the list is unchanged; on `True` the
total node count grows by the attached nodes' count. -/
theorem fut_ok_spec (tid : String) (newc : List Value) (l : List Value) :
    ∀ l' b, find_and_update_target tid newc l = .ok (l', b) →
      ((b = false → l' = l ∧ ∀ nf, Value.obj nf ∈ reachL l → idStrOf nf ≠ tid) ∧
       (b = true → nsizeL l' = nsizeL l + nsizeL newc ∧
          ∃ nf, Value.obj nf ∈ reachL l ∧ idStrOf nf = tid)) := by
  refine find_and_update_target.induct tid newc
    (fun l => ∀ l' b, find_and_update_target tid newc l = .ok (l', b) →
      ((b = false → l' = l ∧ ∀ nf, Value.obj nf ∈ reachL l → idStrOf nf ≠ tid) ∧
       (b = true → nsizeL l' = nsizeL l + nsizeL newc ∧
          ∃ nf, Value.obj nf ∈ reachL l ∧ idStrOf nf = tid)))
    (fun f => ∀ f' b, find_and_update_targetF tid newc f = .ok (f', b) →
      ((b = false → f' = f ∧ ∀ nf, Value.obj nf ∈ reachF f → idStrOf nf ≠ tid) ∧
       (b = true → nsizeF f' = nsizeF f + nsizeL newc ∧
          ∃ nf, Value.obj nf ∈ reachF f ∧ idStrOf nf = tid)))
    (fun cv => ∀ cv' b, find_and_update_targetC tid newc cv = .ok (cv', b) →
      ((b = false → cv' = cv ∧ ∀ nf, Value.obj nf ∈ reachC cv → idStrOf nf ≠ tid) ∧
       (b = true → nsize cv' = nsize cv + nsizeL newc ∧
          ∃ nf, Value.obj nf ∈ reachC cv ∧ idStrOf nf = tid)))
    ?_ ?_ ?_ ?_ ?_ ?_ ?_ ?_ ?_ ?_ ?_ ?_ ?_ ?_ ?_ ?_ ?_ ?_ ?_ ?_ l
  · -- child value is an array, inner search raises
    intro cl e hcl _ih cv' b h
    simp [find_and_update_targetC, hcl] at h
  · -- child value is an array, inner search returns
    intro cl rest' b0 hcl ih cv' b h
    simp only [find_and_update_targetC, hcl] at h
    injection h with h1
    injection h1 with h2 h3
    subst h2; subst h3
    have hspec := ih rest' b0 hcl
    constructor
    · rintro rfl
      obtain ⟨heq, hno⟩ := hspec.1 rfl
      subst heq
      exact ⟨rfl, by simpa [reachC] using hno⟩
    · rintro rfl
      obtain ⟨hsz, nf, hmem, hid⟩ := hspec.2 rfl
      exact ⟨by simpa [nsize] using hsz, nf, by simpa [reachC] using hmem, hid⟩
  · -- child value is the empty string: nothing searched
    intro s hs cv' b h
    simp only [find_and_update_targetC, hs, if_pos] at h
    injection h with h1
    injection h1 with h2 h3
    subst h2; subst h3
    exact ⟨fun _ => ⟨rfl, by simp [reachC]⟩, fun hb => by cases hb⟩
  · -- child value is a non-empty string: AttributeError
    intro s hs cv' b h
    simp [find_and_update_targetC, hs] at h
  · -- child value is the empty dict: nothing searched
    intro cv' b h
    simp only [find_and_update_targetC] at h
    injection h with h1
    injection h1 with h2 h3
    subst h2; subst h3
    exact ⟨fun _ => ⟨rfl, by simp [reachC]⟩, fun hb => by cases hb⟩
  · -- child value is a non-empty dict: AttributeError
    intro head tail cv' b h
    simp [find_and_update_targetC] at h
  · -- child value not iterable (or handled above): TypeError
    intro t h1 h2 h3 h4 cv' b h
    cases t with
    | arr cl => exact absurd rfl (h1 cl)
    | str s => exact absurd rfl (h2 s)
    | obj g =>
      cases g with
      | nil => exact absurd rfl h3
      | cons hd tl => exact absurd rfl (h4 hd tl)
    | null => simp [find_and_update_targetC] at h
    | bool bb => simp [find_and_update_targetC] at h
    | int n => simp [find_and_update_targetC] at h
    | float q => simp [find_and_update_targetC] at h
  · -- empty node list
    intro l' b h
    simp only [find_and_update_target] at h
    injection h with h1
    injection h1 with h2 h3
    subst h2; subst h3
    exact ⟨fun _ => ⟨rfl, by simp [reachL]⟩, fun hb => by cases hb⟩
  · -- id matches, extend raises
    intro f rest hid e hex l' b h
    simp [find_and_update_target, hid, hex] at h
  · -- id matches, extend succeeds: found here
    intro f rest hid f' hex l' b h
    simp only [find_and_update_target, hid, if_pos, hex] at h
    injection h with h1
    injection h1 with h2 h3
    subst h2; subst h3
    constructor
    · intro hb; cases hb
    · intro
      have hsz := extendChildren_nsizeF f f' newc hex
      refine ⟨by simp only [nsizeL, nsize, hsz]; omega, f, ?_, hid⟩
      simp [reachL, reach1]
  · -- id differs, child search raises
    intro f rest hid e hf _ih l' b h
    simp only [find_and_update_target, if_neg hid, hf] at h
    cases h
  · -- id differs, found inside the children
    intro f rest hid f' hf ih l' b h
    simp only [find_and_update_target, if_neg hid, hf] at h
    injection h with h1
    injection h1 with h2 h3
    subst h2; subst h3
    constructor
    · intro hb; cases hb
    · intro
      obtain ⟨hsz, nf, hmem, hidn⟩ := (ih f' true hf).2 rfl
      refine ⟨by simp only [nsizeL, nsize, hsz]; omega, nf, ?_, hidn⟩
      simp only [reachL, reach1, List.mem_append, List.mem_cons]
      left; right; exact hmem
  · -- id differs, not in children, sibling search raises
    intro f rest hid fst hf e hrest _ih1 _ih2 l' b h
    simp only [find_and_update_target, if_neg hid, hf, hrest] at h
    cases h
  · -- id differs, not in children, sibling search returns
    intro f rest hid fst hf rest' b0 hrest ihf ihl l' b h
    simp only [find_and_update_target, if_neg hid, hf, hrest] at h
    injection h with h1
    injection h1 with h2 h3
    subst h2; subst h3
    have hfspec := (ihf fst false hf).1 rfl
    have hlspec := ihl rest' b0 hrest
    constructor
    · rintro rfl
      obtain ⟨heq, hno⟩ := hlspec.1 rfl
      subst heq
      refine ⟨rfl, ?_⟩
      intro nf hmem
      simp only [reachL, reach1, List.mem_append, List.mem_cons] at hmem
      rcases hmem with (hmem | hmem) | hmem
      · injection hmem with h5
        subst h5
        exact hid
      · exact hfspec.2 nf hmem
      · exact hno nf hmem
    · rintro rfl
      obtain ⟨hsz, nf, hmem, hidn⟩ := hlspec.2 rfl
      refine ⟨by simp only [nsizeL, hsz]; omega, nf, ?_, hidn⟩
      simp only [reachL, reach1, List.mem_append, List.mem_cons]
      right; exact hmem
  · -- a non-dict list item: AttributeError
    intro head tail hnd l' b h
    cases head with
    | obj f => exact absurd rfl (hnd f)
    | null => simp [find_and_update_target] at h
    | bool bb => simp [find_and_update_target] at h
    | int n => simp [find_and_update_target] at h
    | float q => simp [find_and_update_target] at h
    | str s => simp [find_and_update_target] at h
    | arr a => simp [find_and_update_target] at h
  · -- empty field list: no child_nodes key
    intro f' b h
    simp only [find_and_update_targetF] at h
    injection h with h1
    injection h1 with h2 h3
    subst h2; subst h3
    exact ⟨fun _ => ⟨rfl, by simp [reachF]⟩, fun hb => by cases hb⟩
  · -- child_nodes entry, search in the value raises
    intro v rest e hc _ih f' b h
    simp [find_and_update_targetF, hc] at h
  · -- child_nodes entry, search in the value returns
    intro v rest cv' b0 hc ih f' b h
    simp only [find_and_update_targetF, if_pos] at h
    rw [hc] at h
    injection h with h1
    injection h1 with h2 h3
    subst h2; subst h3
    have hspec := ih cv' b0 hc
    constructor
    · rintro rfl
      obtain ⟨heq, hno⟩ := hspec.1 rfl
      subst heq
      exact ⟨rfl, by simpa [reachF] using hno⟩
    · rintro rfl
      obtain ⟨hsz, nf, hmem, hidn⟩ := hspec.2 rfl
      exact ⟨by simpa [nsizeF] using hsz, nf, by simpa [reachF] using hmem, hidn⟩
  · -- other entry, recursion into the remaining fields raises
    intro k v rest hk e hrest _ih f' b h
    simp [find_and_update_targetF, hk, hrest] at h
  · -- other entry, recursion into the remaining fields returns
    intro k v rest hk rest' b0 hrest ih f' b h
    simp only [find_and_update_targetF, if_neg hk, hrest] at h
    injection h with h1
    injection h1 with h2 h3
    subst h2; subst h3
    have hspec := ih rest' b0 hrest
    constructor
    · rintro rfl
      obtain ⟨heq, hno⟩ := hspec.1 rfl
      subst heq
      exact ⟨rfl, by simpa [reachF, hk] using hno⟩
    · rintro rfl
      obtain ⟨hsz, nf, hmem, hidn⟩ := hspec.2 rfl
      exact ⟨by simpa [nsizeF, hk] using hsz, nf, by simpa [reachF, hk] using hmem, hidn⟩

/-- C10 counterexample.  The claim says a node whose id is absent is never a
MOVE target.  `find_and_update_target` compares `str(node.get('id'))`, and
`node.get('id')` is `None` for an id-less node, rendering as `"None"`: a
MOVE whose target renders as `"None"` reattaches the detached node under the
id-less node. -/
theorem C10_absent_id_is_target_cex :
    lookupV [("name", Value.str "anon")] "id" = none ∧
    (apply_operation .MOVE "None" ⟨[⟨"m", .EQUALS, .int 1⟩], .AND⟩ (.null) 1
        (.obj [("root_nodes", .arr [.obj [("name", .str "anon")],
          .obj [("id", .int 2), ("m", .int 1)]])])).ret
      = .ok (some (.obj [("root_nodes", .arr [.obj [("name", .str "anon"),
          ("child_nodes", .arr [.obj [("id", .int 2), ("m", .int 1)]])]])])) :=
  ⟨rfl, rfl⟩

/-- C10 (amended).  A successful reattachment pass reports `True` exactly
when some reachable node's `str(node.get('id'))` equals the target string —
so a target supplied as the string `"5"` locates the node whose integer id
is `5`, and a node without an id renders as `"None"` and is a target
precisely when the target value also renders as `"None"`. -/
theorem C10_target_by_string_rendering (tid : String) (newc l l' : List Value)
    (b : Bool) (h : find_and_update_target tid newc l = .ok (l', b)) :
    b = true ↔ ∃ nf, Value.obj nf ∈ reachL l ∧ idStrOf nf = tid := by
  have hs := fut_ok_spec tid newc l l' b h
  constructor
  · intro hb
    exact (hs.2 hb).2
  · rintro ⟨nf, hmem, hid⟩
    cases b with
    | true => rfl
    | false => exact absurd hid ((hs.1 rfl).2 nf hmem)

/-- Witness for C10 (amended): the target string `"5"` finds the node whose
integer id is `5`. -/
theorem C10_target_by_string_rendering_witness :
    ∃ nf, Value.obj nf ∈ reachL [.obj [("id", Value.int 5)]] ∧ idStrOf nf = "5" :=
  (C10_target_by_string_rendering "5" [] [.obj [("id", .int 5)]]
    [.obj [("id", .int 5), ("child_nodes", .arr [])]] true rfl).mp rfl

/-! ### C3: an error mid-walk leaves a half-updated document -/

/-- C3 counterexample.  The claim says that when `apply_operation` raises
partway through the walk the caller's document is left untouched.  Here the
first root's matching child has already been removed in place
(`obj['child_nodes'] = ...`, line 128) when evaluating the second root
raises, so the caller observes a half-updated tree: the first root's child
list is now empty, the second root is untouched, and the call returned no
document. -/
theorem C3_half_update_cex :
    (apply_operation .REMOVE "f"
        ⟨[⟨"kill", .EQUALS, .int 1⟩, ⟨"x", .GREATER_THAN, .int 5⟩], .OR⟩ (.null) 1
        (.obj [("root_nodes", .arr [
          .obj [("id", .int 1), ("child_nodes", .arr [.obj [("kill", .int 1)]])],
          .obj [("id", .int 2), ("x", .str "bad")]])])).ret
      = .error .typeError ∧
    (apply_operation .REMOVE "f"
        ⟨[⟨"kill", .EQUALS, .int 1⟩, ⟨"x", .GREATER_THAN, .int 5⟩], .OR⟩ (.null) 1
        (.obj [("root_nodes", .arr [
          .obj [("id", .int 1), ("child_nodes", .arr [.obj [("kill", .int 1)]])],
          .obj [("id", .int 2), ("x", .str "bad")]])])).st
      = .obj [("root_nodes", .arr [
          .obj [("id", .int 1), ("child_nodes", .arr [])],
          .obj [("id", .int 2), ("x", .str "bad")]])] ∧
    Value.obj [("root_nodes", .arr [
          .obj [("id", .int 1), ("child_nodes", .arr [])],
          .obj [("id", .int 2), ("x", .str "bad")]])]
      ≠ .obj [("root_nodes", .arr [
          .obj [("id", .int 1), ("child_nodes", .arr [.obj [("kill", .int 1)]])],
          .obj [("id", .int 2), ("x", .str "bad")]])] := by
  refine ⟨rfl, rfl, ?_⟩
  intro h
  simp at h

/-- C3 (amended).  The walk mutates the caller's nodes in place as it goes:
when processing a list whose prefix succeeds and whose next (dict) element
raises, the call raises, the prefix elements keep the states their own
processing left them in, and the elements after the failure point are
untouched. -/
theorem C3_error_leaves_prefix_mutated (op : Operation) (tp : String)
    (fg : FilterGroup) (value : Value) (adj : ℚ) (l1 : List Value)
    (f : List (String × Value)) (xs : List Value) (r1 mv1 : List Value) (e : PyErr)
    (h1 : (process_list op tp fg value adj l1).ret = .ok (r1, mv1))
    (h2 : (process_object op tp fg value adj (.obj f)).ret = .error e) :
    process_list op tp fg value adj (l1 ++ .obj f :: xs)
      = ⟨.error e, (process_list op tp fg value adj l1).sts
          ++ (process_object op tp fg value adj (.obj f)).st :: xs⟩ := by
  induction l1 generalizing r1 mv1 with
  | nil =>
    rcases hpo : process_object op tp fg value adj (.obj f) with ⟨ret0, st0⟩
    rw [hpo] at h2
    simp only at h2
    subst h2
    simp [process_list, hpo]
  | cons y l1 ih =>
    cases y with
    | obj g =>
      rcases hpo : process_object op tp fg value adj (.obj g) with ⟨ret0, st0⟩
      cases ret0 with
      | error e0 => simp [process_list, hpo] at h1
      | ok p0 =>
        rcases p0 with ⟨ro, mv0⟩
        rcases hpl : process_list op tp fg value adj l1 with ⟨ret1, sts1⟩
        cases ret1 with
        | error e1 => simp [process_list, hpo, hpl] at h1
        | ok p1 =>
          rcases p1 with ⟨r2, mv2⟩
          have hih := ih r2 mv2 (by rw [hpl])
          simp only [List.cons_append, List.append_eq, process_list, hpo, hih, hpl]
    | arr il =>
      rcases hpi : process_list op tp fg value adj il with ⟨reti, stsi⟩
      cases reti with
      | error e0 => simp [process_list, hpi] at h1
      | ok pi =>
        rcases pi with ⟨nl, mv0⟩
        rcases hpl : process_list op tp fg value adj l1 with ⟨ret1, sts1⟩
        cases ret1 with
        | error e1 => simp [process_list, hpi, hpl] at h1
        | ok p1 =>
          rcases p1 with ⟨r2, mv2⟩
          have hih := ih r2 mv2 (by rw [hpl])
          simp only [List.cons_append, List.append_eq, process_list, hpi, hih, hpl]
    | null =>
      rcases hpl : process_list op tp fg value adj l1 with ⟨ret1, sts1⟩
      cases ret1 with
      | error e1 => simp [process_list, hpl] at h1
      | ok p1 =>
        rcases p1 with ⟨r2, mv2⟩
        have hih := ih r2 mv2 (by rw [hpl])
        simp only [List.cons_append, List.append_eq, process_list, hih, hpl]
    | bool bb =>
      rcases hpl : process_list op tp fg value adj l1 with ⟨ret1, sts1⟩
      cases ret1 with
      | error e1 => simp [process_list, hpl] at h1
      | ok p1 =>
        rcases p1 with ⟨r2, mv2⟩
        have hih := ih r2 mv2 (by rw [hpl])
        simp only [List.cons_append, List.append_eq, process_list, hih, hpl]
    | int n =>
      rcases hpl : process_list op tp fg value adj l1 with ⟨ret1, sts1⟩
      cases ret1 with
      | error e1 => simp [process_list, hpl] at h1
      | ok p1 =>
        rcases p1 with ⟨r2, mv2⟩
        have hih := ih r2 mv2 (by rw [hpl])
        simp only [List.cons_append, List.append_eq, process_list, hih, hpl]
    | float q =>
      rcases hpl : process_list op tp fg value adj l1 with ⟨ret1, sts1⟩
      cases ret1 with
      | error e1 => simp [process_list, hpl] at h1
      | ok p1 =>
        rcases p1 with ⟨r2, mv2⟩
        have hih := ih r2 mv2 (by rw [hpl])
        simp only [List.cons_append, List.append_eq, process_list, hih, hpl]
    | str s =>
      rcases hpl : process_list op tp fg value adj l1 with ⟨ret1, sts1⟩
      cases ret1 with
      | error e1 => simp [process_list, hpl] at h1
      | ok p1 =>
        rcases p1 with ⟨r2, mv2⟩
        have hih := ih r2 mv2 (by rw [hpl])
        simp only [List.cons_append, List.append_eq, process_list, hih, hpl]

/-- Witness for C3 (amended) at a concrete split: one successfully processed
root, then a root whose comparison raises, then one untouched root. -/
theorem C3_error_leaves_prefix_mutated_witness :
    process_list .REMOVE "f"
        ⟨[⟨"kill", .EQUALS, .int 1⟩, ⟨"x", .GREATER_THAN, .int 5⟩], .OR⟩ (.null) 1
        ([.obj [("id", .int 1), ("child_nodes", .arr [.obj [("kill", .int 1)]])]]
          ++ .obj [("id", .int 2), ("x", .str "bad")] :: [.obj [("id", .int 3)]])
      = ⟨.error .typeError,
          (process_list .REMOVE "f"
            ⟨[⟨"kill", .EQUALS, .int 1⟩, ⟨"x", .GREATER_THAN, .int 5⟩], .OR⟩ (.null) 1
            [.obj [("id", .int 1), ("child_nodes", .arr [.obj [("kill", .int 1)]])]]).sts
          ++ (process_object .REMOVE "f"
            ⟨[⟨"kill", .EQUALS, .int 1⟩, ⟨"x", .GREATER_THAN, .int 5⟩], .OR⟩ (.null) 1
            (.obj [("id", .int 2), ("x", .str "bad")])).st :: [.obj [("id", .int 3)]]⟩ :=
  C3_error_leaves_prefix_mutated .REMOVE "f"
    ⟨[⟨"kill", .EQUALS, .int 1⟩, ⟨"x", .GREATER_THAN, .int 5⟩], .OR⟩ (.null) 1
    [.obj [("id", .int 1), ("child_nodes", .arr [.obj [("kill", .int 1)]])]]
    [("id", .int 2), ("x", .str "bad")] [.obj [("id", .int 3)]]
    [.obj [("id", .int 1), ("child_nodes", .arr [])]] [] .typeError rfl rfl

/-! ### C1: MOVE conserves the total node count -/

/-- Node count of an optional returned node (`None` contributes nothing). -/
def optSize : Option Value → Nat
  | none => 0
  | some o => nsize o

mutual

/-- The spec's document model (§3): a node is a dict whose `child_nodes`
entry, when present, is an array of nodes. -/
def nodeOk : Value → Bool
  | .obj f => nodeOkF f
  | _ => false

/-- A `child_nodes` value in the spec model: an array of nodes. -/
def nodeOkC : Value → Bool
  | .arr l => nodeOkL l
  | _ => false

/-- Fields of a node in the spec model. -/
def nodeOkF : List (String × Value) → Bool
  | [] => true
  | (k, v) :: rest => if k = "child_nodes" then nodeOkC v else nodeOkF rest

/-- A list of nodes in the spec model. -/
def nodeOkL : List Value → Bool
  | [] => true
  | x :: xs => nodeOk x && nodeOkL xs

end

theorem nsizeL_map_str (cs : List Char) :
    nsizeL (cs.map (fun c => Value.str (String.mk [c]))) = 0 := by
  induction cs with
  | nil => rfl
  | cons c cs ih => simp [nsizeL, nsize, ih]

theorem strElems_nsizeL (s : String) : nsizeL (strElems s) = 0 :=
  nsizeL_map_str s.data

theorem keyElems_nsizeL (f : List (String × Value)) : nsizeL (keyElems f) = 0 := by
  induction f with
  | nil => rfl
  | cons kv rest ih => simp [keyElems, nsizeL, nsize] at ih ⊢; simpa [keyElems] using ih

/-- Under MOVE the post-filter step conserves node count: either the node is
returned, or it is appended to the moved collection. -/
theorem afterChildren_move_size (tp : String) (fg : FilterGroup) (value : Value)
    (adj : ℚ) (f1 : List (String × Value)) (mv : List Value) (ro : Option Value)
    (mv2 : List Value)
    (h : (afterChildren .MOVE tp fg value adj f1 mv).ret = .ok (ro, mv2)) :
    optSize ro + nsizeL mv2 = nsize (.obj f1) + nsizeL mv := by
  unfold afterChildren at h
  split at h
  · cases h
  · injection h with h1
    injection h1 with h2 h3
    subst h2; subst h3
    simp [optSize]
  · injection h with h1
    injection h1 with h2 h3
    subst h2; subst h3
    simp only [optSize, nsizeL_append, nsizeL]
    omega

/-- The post-filter step never drops already-collected moved nodes. -/
theorem afterChildren_mem_mv (op : Operation) (tp : String) (fg : FilterGroup)
    (value : Value) (adj : ℚ) (f1 : List (String × Value)) (mv : List Value)
    (ro : Option Value) (mv2 : List Value) (y : Value)
    (h : (afterChildren op tp fg value adj f1 mv).ret = .ok (ro, mv2))
    (hy : y ∈ mv) : y ∈ mv2 := by
  unfold afterChildren at h
  split at h
  · cases h
  · injection h with h1
    injection h1 with h2 h3
    subst h3
    exact hy
  · split at h
    · injection h with h1
      injection h1 with h2 h3
      subst h3
      exact hy
    · injection h with h1
      injection h1 with h2 h3
      subst h3
      exact List.mem_append_left _ hy
    · split at h
      · injection h with h1
        injection h1 with h2 h3
        subst h3
        exact hy
      · injection h with h1
        injection h1 with h2 h3
        subst h3
        exact hy
    · split at h
      · split at h
        · cases h
        · injection h with h1
          injection h1 with h2 h3
          subst h3
          exact hy
      · injection h with h1
        injection h1 with h2 h3
        subst h3
        exact hy

/-- Conservation of node count by the MOVE walk, for documents in which no
`child_nodes` value is itself a dict: every node is either in the rewritten
tree or in the moved collection, exactly once. -/
theorem move_walk_conserves (tp : String) (fg : FilterGroup) (value : Value)
    (adj : ℚ) (l : List Value) :
    wfL l = true → ∀ r mv, (process_list .MOVE tp fg value adj l).ret = .ok (r, mv) →
      nsizeL r + nsizeL mv = nsizeL l := by
  refine process_list.induct .MOVE tp fg value adj
    (fun x => wfV x = true → ∀ ro mv,
      (process_object .MOVE tp fg value adj x).ret = .ok (ro, mv) →
        optSize ro + nsizeL mv = nsize x)
    (fun f => wfF f = true → ∀ f1 mv,
      (fieldsWalk .MOVE tp fg value adj f).ret = .ok (f1, mv) →
        nsizeF f1 + nsizeL mv = nsizeF f)
    (fun cv => (∀ g, cv = Value.obj g → False) → wfV cv = true → ∀ nl mv,
      (childWalk .MOVE tp fg value adj cv).ret = .ok (nl, mv) →
        nsizeL nl + nsizeL mv = nsize cv)
    (fun l => wfL l = true → ∀ r mv,
      (process_list .MOVE tp fg value adj l).ret = .ok (r, mv) →
        nsizeL r + nsizeL mv = nsizeL l)
    ?_ ?_ ?_ ?_ ?_ ?_ ?_ ?_ ?_ ?_ ?_ ?_ ?_ ?_ ?_ ?_ ?_ ?_ ?_ ?_ ?_ ?_ l
  · -- dict node, child walk raises
    intro f e stf hfw _ih _hwf ro mv h
    simp [process_object, hfw] at h
  · -- dict node, child walk succeeds
    intro f f1 mv0 stf hfw ih hwf ro mv h
    simp only [process_object, hfw] at h
    have hf := ih (by simpa [wfV] using hwf) f1 mv0 (by rw [hfw])
    have hac := afterChildren_move_size tp fg value adj f1 mv0 ro mv h
    simp only [nsize] at hac ⊢
    omega
  · -- non-dict value through process_object: returned as is
    intro x hnotobj _hwf ro mv h
    cases x with
    | obj f => exact absurd rfl (hnotobj f)
    | null => simp only [process_object] at h; injection h with h1; injection h1 with h2 h3; subst h2; subst h3; simp [optSize, nsizeL, nsize]
    | bool b => simp only [process_object] at h; injection h with h1; injection h1 with h2 h3; subst h2; subst h3; simp [optSize, nsizeL, nsize]
    | int n => simp only [process_object] at h; injection h with h1; injection h1 with h2 h3; subst h2; subst h3; simp [optSize, nsizeL, nsize]
    | float q => simp only [process_object] at h; injection h with h1; injection h1 with h2 h3; subst h2; subst h3; simp [optSize, nsizeL, nsize]
    | str s => simp only [process_object] at h; injection h with h1; injection h1 with h2 h3; subst h2; subst h3; simp [optSize, nsizeL, nsize]
    | arr a => simp only [process_object] at h; injection h with h1; injection h1 with h2 h3; subst h2; subst h3; simp [optSize, nsizeL, nsize]
  · -- array child value, inner walk raises
    intro il e sts hpl _ih _hno _hwf nl mv h
    simp [childWalk, hpl] at h
  · -- array child value, inner walk succeeds
    intro il r sts hpl ih _hno hwf nl mv h
    simp only [childWalk, hpl] at h
    rcases r with ⟨r2, mv2⟩
    injection h with h1
    injection h1 with h2 h3
    subst h2; subst h3
    simpa [nsize] using ih (by simpa [wfV] using hwf) r2 mv2 (by rw [hpl])
  · -- string child value: its characters, no nodes
    intro s _hno _hwf nl mv h
    simp only [childWalk] at h
    injection h with h1
    injection h1 with h2 h3
    subst h2; subst h3
    simp [strElems_nsizeL, nsizeL, nsize]
  · -- dict child value: excluded as malformed
    intro f2 hno
    exact absurd rfl (hno f2)
  · -- non-iterable child value: TypeError
    intro cv harr hstr hobj _hno _hwf nl mv h
    cases cv with
    | arr l => exact absurd rfl (harr l)
    | str s => exact absurd rfl (hstr s)
    | obj f2 => exact absurd rfl (hobj f2)
    | null => simp [childWalk] at h
    | bool b => simp [childWalk] at h
    | int n => simp [childWalk] at h
    | float q => simp [childWalk] at h
  · -- empty list
    intro _hwf r mv h
    simp only [process_list] at h
    injection h with h1
    injection h1 with h2 h3
    subst h2; subst h3
    rfl
  · -- dict item raises
    intro f xs e st hpo _ih _hwf r mv h
    simp [process_list, hpo] at h
  · -- dict item ok, tail raises
    intro f xs ro mv0 st hpo e sts hpl _ih1 _ih2 _hwf r mv h
    simp [process_list, hpo, hpl] at h
  · -- dict item ok, tail ok
    intro f xs ro mv0 st hpo r2 mv2 sts hpl iho ihl hwf r mv h
    simp only [process_list, hpo, hpl] at h
    injection h with h1
    injection h1 with h2 h3
    subst h2; subst h3
    have hwf1 : wfV (.obj f) = true ∧ wfL xs = true := by
      simpa [wfL, Bool.and_eq_true] using hwf
    have ho := iho hwf1.1 ro mv0 (by rw [hpo])
    have hl := ihl hwf1.2 r2 mv2 (by rw [hpl])
    cases ro with
    | none => simp only [optSize] at ho; simp only [nsizeL, nsizeL_append]; omega
    | some o => simp only [optSize] at ho; simp only [nsizeL, nsizeL_append]; omega
  · -- array item raises
    intro il xs e sts hpi _ih _hwf r mv h
    simp [process_list, hpi] at h
  · -- array item ok, tail raises
    intro il xs r2 mv2 sts hpi e sts2 hpl _ih1 _ih2 _hwf r mv h
    simp [process_list, hpi, hpl] at h
  · -- array item ok, tail ok
    intro il xs r2 mv2 sts hpi r3 mv3 sts2 hpl ihi ihl hwf r mv h
    simp only [process_list, hpi, hpl] at h
    injection h with h1
    injection h1 with h2 h3
    subst h2; subst h3
    have hwf1 : wfL il = true ∧ wfL xs = true := by
      simpa [wfL, wfV, Bool.and_eq_true] using hwf
    have hi := ihi hwf1.1 r2 mv2 (by rw [hpi])
    have hl := ihl hwf1.2 r3 mv3 (by rw [hpl])
    cases r2 with
    | nil => simp only [nsizeL, nsizeL_append, nsize] at hi ⊢; omega
    | cons z zs => simp only [nsizeL, nsizeL_append, nsize] at hi ⊢; omega
  · -- scalar item, tail raises
    intro s xs _hno1 _hno2 e sts hpl _ih _hwf r mv h
    cases s with
    | obj f => exact absurd rfl (_hno1 f)
    | arr il => exact absurd rfl (_hno2 il)
    | null => simp [process_list, hpl] at h
    | bool b => simp [process_list, hpl] at h
    | int n => simp [process_list, hpl] at h
    | float q => simp [process_list, hpl] at h
    | str s2 => simp [process_list, hpl] at h
  · -- scalar item, tail ok
    intro s xs hno1 hno2 r2 mv2 sts hpl ihl hwf r mv h
    have step : ∀ (hone : nsize s = 0) (hwfx : wfL xs = true),
        (process_list .MOVE tp fg value adj (s :: xs)).ret = .ok (r, mv) →
          nsizeL r + nsizeL mv = nsizeL (s :: xs) := by
      intro hone hwfx hh
      have hback : (process_list .MOVE tp fg value adj (s :: xs))
          = ⟨.ok (s :: r2, mv2), s :: sts⟩ := by
        cases s with
        | obj f => exact absurd rfl (hno1 f)
        | arr il => exact absurd rfl (hno2 il)
        | null => simp [process_list, hpl]
        | bool b => simp [process_list, hpl]
        | int n => simp [process_list, hpl]
        | float q => simp [process_list, hpl]
        | str s2 => simp [process_list, hpl]
      rw [hback] at hh
      injection hh with h1
      injection h1 with h2 h3
      subst h2; subst h3
      have hl := ihl hwfx r2 mv2 (by rw [hpl])
      simp only [nsizeL, hone]
      omega
    have hszero : nsize s = 0 := by
      cases s with
      | obj f => exact absurd rfl (hno1 f)
      | arr il => exact absurd rfl (hno2 il)
      | null => rfl
      | bool b => rfl
      | int n => rfl
      | float q => rfl
      | str s2 => rfl
    have hwfx : wfL xs = true := by
      cases s with
      | obj f => exact absurd rfl (hno1 f)
      | arr il => exact absurd rfl (hno2 il)
      | null => simpa [wfL, wfV, Bool.and_eq_true] using hwf
      | bool b => simpa [wfL, wfV, Bool.and_eq_true] using hwf
      | int n => simpa [wfL, wfV, Bool.and_eq_true] using hwf
      | float q => simpa [wfL, wfV, Bool.and_eq_true] using hwf
      | str s2 => simpa [wfL, wfV, Bool.and_eq_true] using hwf
    exact step hszero hwfx h
  · -- empty field list
    intro _hwf f1 mv h
    simp only [fieldsWalk] at h
    injection h with h1
    injection h1 with h2 h3
    subst h2; subst h3
    rfl
  · -- child_nodes entry, child walk raises
    intro v rest e st hcw _ih _hwf f1 mv h
    simp [fieldsWalk, hcw] at h
  · -- child_nodes entry, child walk succeeds
    intro v rest nl mv0 st hcw ih hwf f1 mv h
    simp only [fieldsWalk, if_pos] at h
    rw [hcw] at h
    injection h with h1
    injection h1 with h2 h3
    subst h2; subst h3
    have hvshape : (∀ g, v = Value.obj g → False) ∧ wfV v = true := by
      constructor
      · intro g hg
        subst hg
        simp [wfF, wfC] at hwf
      · cases v with
        | obj g => simp [wfF, wfC] at hwf
        | arr a => simpa [wfF, wfC, wfV] using hwf
        | null => rfl
        | bool b => rfl
        | int n => rfl
        | float q => rfl
        | str s => rfl
    have hv := ih hvshape.1 hvshape.2 nl mv0 (by rw [hcw])
    simp only [nsizeF, if_pos, nsize]
    simp only [nsizeF] at *
    omega
  · -- other entry, recursion raises
    intro k v rest hk e stf hfw _ih _hwf f1 mv h
    simp [fieldsWalk, hk, hfw] at h
  · -- other entry, recursion succeeds
    intro k v rest hk f1r mv0 stf hfw ih hwf f1 mv h
    simp only [fieldsWalk, if_neg hk, hfw] at h
    injection h with h1
    injection h1 with h2 h3
    subst h2; subst h3
    rw [wfF, if_neg hk] at hwf
    have := ih hwf f1r mv0 (by rw [hfw])
    simp only [nsizeF, if_neg hk]
    omega

/-- Under MOVE, a node list in the spec model none of whose reachable nodes
matches the filter is a fixpoint of the walk: nothing is changed, nothing
is collected, nothing is mutated.  Stated at the field-list level (the form
needed when reasoning about one matched node whose descendants are all
non-matching). -/
theorem move_fix_fieldsWalk (tp : String) (fg : FilterGroup) (value : Value)
    (adj : ℚ) (f0 : List (String × Value)) :
    nodeOkF f0 = true →
      (∀ mf, Value.obj mf ∈ wreachF f0 → FilterGroup.evaluate fg mf = .ok false) →
      fieldsWalk .MOVE tp fg value adj f0 = ⟨.ok (f0, []), f0⟩ := by
  refine fieldsWalk.induct .MOVE tp fg value adj
    (fun x => nodeOk x = true →
      (∀ mf, Value.obj mf ∈ wreach1 x → FilterGroup.evaluate fg mf = .ok false) →
      process_object .MOVE tp fg value adj x = ⟨.ok (some x, []), x⟩)
    (fun f => nodeOkF f = true →
      (∀ mf, Value.obj mf ∈ wreachF f → FilterGroup.evaluate fg mf = .ok false) →
      fieldsWalk .MOVE tp fg value adj f = ⟨.ok (f, []), f⟩)
    (fun cv => nodeOkC cv = true →
      (∀ mf, Value.obj mf ∈ wreachC cv → FilterGroup.evaluate fg mf = .ok false) →
      ∀ ll, cv = .arr ll → childWalk .MOVE tp fg value adj cv = ⟨.ok (ll, []), .arr ll⟩)
    (fun l => nodeOkL l = true →
      (∀ mf, Value.obj mf ∈ wreachL l → FilterGroup.evaluate fg mf = .ok false) →
      process_list .MOVE tp fg value adj l = ⟨.ok (l, []), l⟩)
    ?_ ?_ ?_ ?_ ?_ ?_ ?_ ?_ ?_ ?_ ?_ ?_ ?_ ?_ ?_ ?_ ?_ ?_ ?_ ?_ ?_ ?_ f0
  · -- dict node: the child walk cannot raise on a non-matching wf subtree
    intro f e stf hfw ih hok hno
    have hfix := ih (by simpa [nodeOk] using hok)
      (fun mf hm => hno mf (by simp only [wreach1, List.mem_cons]; right; exact hm))
    rw [hfix] at hfw
    injection hfw with h1 h2
    cases h1
  · -- dict node with successfully walked children
    intro f f1 mv0 stf hfw ih hok hno
    have hfix := ih (by simpa [nodeOk] using hok)
      (fun mf hm => hno mf (by simp only [wreach1, List.mem_cons]; right; exact hm))
    rw [hfix] at hfw
    injection hfw with h1 h2
    injection h1 with h1'
    injection h1' with h4 h5
    subst h4; subst h5
    have hev : FilterGroup.evaluate fg f = .ok false :=
      hno f (by simp [wreach1])
    simp [process_object, hfix, afterChildren, hev]
  · -- non-dict values are not spec-model nodes
    intro x hnotobj hok _hno
    cases x with
    | obj f => exact absurd rfl (hnotobj f)
    | null => simp [nodeOk] at hok
    | bool b => simp [nodeOk] at hok
    | int n => simp [nodeOk] at hok
    | float q => simp [nodeOk] at hok
    | str s => simp [nodeOk] at hok
    | arr a => simp [nodeOk] at hok
  · -- array child value: the inner walk cannot raise
    intro il e sts hpl ih hok hno ll hll
    injection hll with h1
    subst h1
    have hfix := ih (by simpa [nodeOkC] using hok)
      (by simpa [wreachC] using hno)
    rw [hfix] at hpl
    injection hpl with h1 h2
    cases h1
  · -- array child value, inner walk succeeded: identity
    intro il r sts hpl ih hok hno ll hll
    injection hll with h1
    subst h1
    have hfix := ih (by simpa [nodeOkC] using hok)
      (by simpa [wreachC] using hno)
    simp [childWalk, hfix]
  · -- string child value: not spec-model
    intro s hok _hno ll hll
    cases hll
  · -- dict child value: not spec-model
    intro f2 hok _hno ll hll
    cases hll
  · -- other child value: not spec-model
    intro cv _h1 _h2 _h3 hok _hno ll hll
    subst hll
    exact absurd rfl (_h1 ll)
  · -- empty list
    intro _hok _hno
    rfl
  · -- dict item whose processing raises: impossible on non-matching input
    intro f xs e st hpo ih hok hno
    have hfix := ih (by
        have := hok
        simp only [nodeOkL, Bool.and_eq_true] at this
        exact this.1)
      (fun mf hm => hno mf (by
        simp only [wreachL, List.mem_append]; left; exact hm))
    rw [hfix] at hpo
    injection hpo with h1 h2
    cases h1
  · -- dict item ok, tail raises: impossible
    intro f xs ro mv0 st hpo e sts hpl iho ihl hok hno
    simp only [nodeOkL, Bool.and_eq_true] at hok
    have hfixl := ihl hok.2
      (fun mf hm => hno mf (by
        simp only [wreachL, List.mem_append]; right; exact hm))
    rw [hfixl] at hpl
    injection hpl with h1 h2
    cases h1
  · -- dict item ok, tail ok: identity
    intro f xs ro mv0 st hpo r2 mv2 sts hpl iho ihl hok hno
    simp only [nodeOkL, Bool.and_eq_true] at hok
    have hfixo := iho hok.1
      (fun mf hm => hno mf (by
        simp only [wreachL, List.mem_append]; left; exact hm))
    have hfixl := ihl hok.2
      (fun mf hm => hno mf (by
        simp only [wreachL, List.mem_append]; right; exact hm))
    simp [process_list, hfixo, hfixl]
  · -- array item: not spec-model
    intro il xs e sts _hpl _ih hok _hno
    simp [nodeOkL, nodeOk] at hok
  · -- array item: not spec-model
    intro il xs r2 mv2 sts _hpl e sts2 _hpl2 _ih1 _ih2 hok _hno
    simp [nodeOkL, nodeOk] at hok
  · -- array item: not spec-model
    intro il xs r2 mv2 sts _hpl r3 mv3 sts2 _hpl2 _ih1 _ih2 hok _hno
    simp [nodeOkL, nodeOk] at hok
  · -- scalar item: not spec-model
    intro s xs hno1 hno2 e sts _hpl _ih hok _hno
    cases s with
    | obj f => exact absurd rfl (hno1 f)
    | arr il => exact absurd rfl (hno2 il)
    | null => simp [nodeOkL, nodeOk] at hok
    | bool b => simp [nodeOkL, nodeOk] at hok
    | int n => simp [nodeOkL, nodeOk] at hok
    | float q => simp [nodeOkL, nodeOk] at hok
    | str s2 => simp [nodeOkL, nodeOk] at hok
  · -- scalar item: not spec-model
    intro s xs hno1 hno2 r2 mv2 sts _hpl _ih hok _hno
    cases s with
    | obj f => exact absurd rfl (hno1 f)
    | arr il => exact absurd rfl (hno2 il)
    | null => simp [nodeOkL, nodeOk] at hok
    | bool b => simp [nodeOkL, nodeOk] at hok
    | int n => simp [nodeOkL, nodeOk] at hok
    | float q => simp [nodeOkL, nodeOk] at hok
    | str s2 => simp [nodeOkL, nodeOk] at hok
  · -- empty field list
    intro _hok _hno
    rfl
  · -- child_nodes entry whose walk raises: impossible
    intro v rest e st hcw ih hok hno
    simp only [nodeOkF, if_pos] at hok
    obtain ⟨ll, rfl⟩ : ∃ ll, v = Value.arr ll := by
      cases v with
      | arr a => exact ⟨a, rfl⟩
      | obj g => simp [nodeOkC] at hok
      | null => simp [nodeOkC] at hok
      | bool b => simp [nodeOkC] at hok
      | int n => simp [nodeOkC] at hok
      | float q => simp [nodeOkC] at hok
      | str s => simp [nodeOkC] at hok
    have hfix := ih hok (by simpa [wreachF] using hno) ll rfl
    rw [hfix] at hcw
    injection hcw with h1 h2
    cases h1
  · -- child_nodes entry, walk succeeded: identity
    intro v rest nl mv0 st hcw ih hok hno
    simp only [nodeOkF, if_pos] at hok
    obtain ⟨ll, rfl⟩ : ∃ ll, v = Value.arr ll := by
      cases v with
      | arr a => exact ⟨a, rfl⟩
      | obj g => simp [nodeOkC] at hok
      | null => simp [nodeOkC] at hok
      | bool b => simp [nodeOkC] at hok
      | int n => simp [nodeOkC] at hok
      | float q => simp [nodeOkC] at hok
      | str s => simp [nodeOkC] at hok
    have hfix := ih hok (by simpa [wreachF] using hno) ll rfl
    simp [fieldsWalk, hfix]
  · -- other entry whose recursion raises: impossible
    intro k v rest hk e stf hfw ih hok hno
    rw [nodeOkF, if_neg hk] at hok
    have hfix := ih hok (by
      intro mf hm
      exact hno mf (by simpa [wreachF, if_neg hk] using hm))
    rw [hfix] at hfw
    injection hfw with h1 h2
    cases h1
  · -- other entry, recursion succeeded: identity
    intro k v rest hk f1 mv0 stf hfw ih hok hno
    rw [nodeOkF, if_neg hk] at hok
    have hfix := ih hok (by
      intro mf hm
      exact hno mf (by simpa [wreachF, if_neg hk] using hm))
    simp [fieldsWalk, hk, hfix]

/-- Under MOVE, every matched node of the walked forest that is a spec-model
node and none of whose proper descendants matches is collected, with its
subtree unchanged in content, into the `nodes_to_move` accumulator. -/
theorem move_collects (tp : String) (fg : FilterGroup) (value : Value)
    (adj : ℚ) (l0 : List Value) :
    ∀ r mv, (process_list .MOVE tp fg value adj l0).ret = .ok (r, mv) →
      ∀ nf, Value.obj nf ∈ wreachL l0 → nodeOkF nf = true →
        FilterGroup.evaluate fg nf = .ok true →
        (∀ mf, Value.obj mf ∈ wreachF nf → FilterGroup.evaluate fg mf = .ok false) →
        Value.obj nf ∈ mv := by
  refine process_list.induct .MOVE tp fg value adj
    (fun x => ∀ g, x = Value.obj g → ∀ ro mv,
      (process_object .MOVE tp fg value adj x).ret = .ok (ro, mv) →
      ∀ nf, Value.obj nf ∈ wreach1 x → nodeOkF nf = true →
        FilterGroup.evaluate fg nf = .ok true →
        (∀ mf, Value.obj mf ∈ wreachF nf → FilterGroup.evaluate fg mf = .ok false) →
        Value.obj nf ∈ mv)
    (fun f => ∀ f1 mv, (fieldsWalk .MOVE tp fg value adj f).ret = .ok (f1, mv) →
      ∀ nf, Value.obj nf ∈ wreachF f → nodeOkF nf = true →
        FilterGroup.evaluate fg nf = .ok true →
        (∀ mf, Value.obj mf ∈ wreachF nf → FilterGroup.evaluate fg mf = .ok false) →
        Value.obj nf ∈ mv)
    (fun cv => ∀ nl mv, (childWalk .MOVE tp fg value adj cv).ret = .ok (nl, mv) →
      ∀ nf, Value.obj nf ∈ wreachC cv → nodeOkF nf = true →
        FilterGroup.evaluate fg nf = .ok true →
        (∀ mf, Value.obj mf ∈ wreachF nf → FilterGroup.evaluate fg mf = .ok false) →
        Value.obj nf ∈ mv)
    (fun l => ∀ r mv, (process_list .MOVE tp fg value adj l).ret = .ok (r, mv) →
      ∀ nf, Value.obj nf ∈ wreachL l → nodeOkF nf = true →
        FilterGroup.evaluate fg nf = .ok true →
        (∀ mf, Value.obj mf ∈ wreachF nf → FilterGroup.evaluate fg mf = .ok false) →
        Value.obj nf ∈ mv)
    ?_ ?_ ?_ ?_ ?_ ?_ ?_ ?_ ?_ ?_ ?_ ?_ ?_ ?_ ?_ ?_ ?_ ?_ ?_ ?_ ?_ ?_ l0
  · -- dict node, child walk raises: no successful return
    intro f e stf hfw _ih g hg ro mv h
    simp [process_object, hfw] at h
  · -- dict node, children walked
    intro f f1 mv0 stf hfw ih g hg ro mv h nf hmem hnok hev hdesc
    injection hg with hg'
    subst hg'
    simp only [process_object, hfw] at h
    simp only [wreach1, List.mem_cons] at hmem
    rcases hmem with hself | hdeep
    · injection hself with h5
      subst h5
      have hfix := move_fix_fieldsWalk tp fg value adj nf hnok hdesc
      rw [hfix] at hfw
      injection hfw with h1 h2
      injection h1 with h1'
      injection h1' with h4 h5
      subst h4; subst h5
      unfold afterChildren at h
      rw [hev] at h
      simp only at h
      injection h with h1
      injection h1 with h2 h3
      subst h3
      simp
    · have hin := ih f1 mv0 (by rw [hfw]) nf hdeep hnok hev hdesc
      exact afterChildren_mem_mv .MOVE tp fg value adj f1 mv0 ro mv _ h hin
  · -- non-dict value: excluded by the premise
    intro x hnotobj g hg
    subst hg
    exact absurd rfl (hnotobj g)
  · -- array child value whose inner walk raises
    intro il e sts hpl _ih nl mv h
    simp [childWalk, hpl] at h
  · -- array child value, inner walk done
    intro il r sts hpl ih nl mv h nf hmem hnok hev hdesc
    simp only [childWalk, hpl] at h
    rcases r with ⟨r2, mv2⟩
    injection h with h1
    injection h1 with h2 h3
    subst h2; subst h3
    exact ih r2 mv2 (by rw [hpl]) nf (by simpa [wreachC] using hmem) hnok hev hdesc
  · -- string child value: no dicts visited
    intro s nl mv _h nf hmem
    simp [wreachC] at hmem
  · -- dict child value: its keys, no dicts visited
    intro f2 nl mv _h nf hmem
    simp [wreachC] at hmem
  · -- non-iterable child value
    intro cv h1 h2 h3 nl mv h nf hmem
    cases cv with
    | arr a => exact absurd rfl (h1 a)
    | str s => exact absurd rfl (h2 s)
    | obj g => exact absurd rfl (h3 g)
    | null => simp [wreachC] at hmem
    | bool b => simp [wreachC] at hmem
    | int n => simp [wreachC] at hmem
    | float q => simp [wreachC] at hmem
  · -- empty list
    intro r mv _h nf hmem
    simp [wreachL] at hmem
  · -- dict item raises
    intro f xs e st hpo _ih r mv h
    simp [process_list, hpo] at h
  · -- dict item ok, tail raises
    intro f xs ro mv0 st hpo e sts hpl _ih1 _ih2 r mv h
    simp [process_list, hpo, hpl] at h
  · -- dict item ok, tail ok
    intro f xs ro mv0 st hpo r2 mv2 sts hpl iho ihl r mv h nf hmem hnok hev hdesc
    simp only [process_list, hpo, hpl] at h
    injection h with h1
    injection h1 with h2 h3
    subst h3
    simp only [wreachL, List.mem_append] at hmem
    rcases hmem with hmem | hmem
    · exact List.mem_append_left _
        (iho f rfl ro mv0 (by rw [hpo]) nf hmem hnok hev hdesc)
    · exact List.mem_append_right _
        (ihl r2 mv2 (by rw [hpl]) nf hmem hnok hev hdesc)
  · -- array item raises
    intro il xs e sts hpi _ih r mv h
    simp [process_list, hpi] at h
  · -- array item ok, tail raises
    intro il xs r2 mv2 sts hpi e sts2 hpl _ih1 _ih2 r mv h
    simp [process_list, hpi, hpl] at h
  · -- array item ok, tail ok
    intro il xs r2 mv2 sts hpi r3 mv3 sts2 hpl ihi ihl r mv h nf hmem hnok hev hdesc
    simp only [process_list, hpi, hpl] at h
    injection h with h1
    injection h1 with h2 h3
    subst h3
    simp only [wreachL, wreach1, List.mem_append] at hmem
    rcases hmem with hmem | hmem
    · exact List.mem_append_left _
        (ihi r2 mv2 (by rw [hpi]) nf hmem hnok hev hdesc)
    · exact List.mem_append_right _
        (ihl r3 mv3 (by rw [hpl]) nf hmem hnok hev hdesc)
  · -- scalar item, tail raises
    intro s xs hno1 hno2 e sts hpl _ih r mv h
    cases s with
    | obj f => exact absurd rfl (hno1 f)
    | arr il => exact absurd rfl (hno2 il)
    | null => simp [process_list, hpl] at h
    | bool b => simp [process_list, hpl] at h
    | int n => simp [process_list, hpl] at h
    | float q => simp [process_list, hpl] at h
    | str s2 => simp [process_list, hpl] at h
  · -- scalar item, tail ok
    intro s xs hno1 hno2 r2 mv2 sts hpl ihl r mv h nf hmem hnok hev hdesc
    have hmem' : Value.obj nf ∈ wreachL xs := by
      cases s with
      | obj f => exact absurd rfl (hno1 f)
      | arr il => exact absurd rfl (hno2 il)
      | null => simpa [wreachL, wreach1] using hmem
      | bool b => simpa [wreachL, wreach1] using hmem
      | int n => simpa [wreachL, wreach1] using hmem
      | float q => simpa [wreachL, wreach1] using hmem
      | str s2 => simpa [wreachL, wreach1] using hmem
    have hmv : mv = mv2 := by
      cases s with
      | obj f => exact absurd rfl (hno1 f)
      | arr il => exact absurd rfl (hno2 il)
      | null =>
        simp only [process_list, hpl] at h
        injection h with h1
        injection h1 with h2 h3
        exact h3.symm
      | bool b =>
        simp only [process_list, hpl] at h
        injection h with h1
        injection h1 with h2 h3
        exact h3.symm
      | int n =>
        simp only [process_list, hpl] at h
        injection h with h1
        injection h1 with h2 h3
        exact h3.symm
      | float q =>
        simp only [process_list, hpl] at h
        injection h with h1
        injection h1 with h2 h3
        exact h3.symm
      | str s2 =>
        simp only [process_list, hpl] at h
        injection h with h1
        injection h1 with h2 h3
        exact h3.symm
    subst hmv
    exact ihl r2 mv (by rw [hpl]) nf hmem' hnok hev hdesc
  · -- empty field list
    intro f1 mv _h nf hmem
    simp [wreachF] at hmem
  · -- child_nodes entry whose walk raises
    intro v rest e st hcw _ih f1 mv h
    simp [fieldsWalk, hcw] at h
  · -- child_nodes entry, walk done
    intro v rest nl mv0 st hcw ih f1 mv h nf hmem hnok hev hdesc
    simp only [fieldsWalk, if_pos] at h
    rw [hcw] at h
    injection h with h1
    injection h1 with h2 h3
    subst h3
    exact ih nl mv0 (by rw [hcw]) nf (by simpa [wreachF] using hmem) hnok hev hdesc
  · -- other entry whose recursion raises
    intro k v rest hk e stf hfw _ih f1 mv h
    simp [fieldsWalk, hk, hfw] at h
  · -- other entry, recursion done
    intro k v rest hk f1r mv0 stf hfw ih f1 mv h nf hmem hnok hev hdesc
    simp only [fieldsWalk, if_neg hk, hfw] at h
    injection h with h1
    injection h1 with h2 h3
    subst h3
    refine ih f1r mv0 (by rw [hfw]) nf ?_ hnok hev hdesc
    simpa [wreachF, if_neg hk] using hmem

/-- C1 counterexample.  The claim says every moved node's subtree is
unchanged in content.  Here both a node (id 2) and its child (id 3) match
the MOVE filter: the child is detached first, so the parent is collected
and reattached under the target with an emptied child list — its subtree
has changed, although the total node count (4) is conserved. -/
theorem C1_moved_subtree_changed_cex :
    (apply_operation .MOVE "1" ⟨[⟨"m", .EQUALS, .int 1⟩], .AND⟩ (.null) 1
        (.obj [("root_nodes", .arr [
          .obj [("id", .int 1)],
          .obj [("id", .int 2), ("m", .int 1),
            ("child_nodes", .arr [.obj [("id", .int 3), ("m", .int 1)]])]])])).ret
      = .ok (some (.obj [("root_nodes", .arr [
          .obj [("id", .int 1), ("child_nodes", .arr [
            .obj [("id", .int 3), ("m", .int 1)],
            .obj [("id", .int 2), ("m", .int 1), ("child_nodes", .arr [])]])]])])) ∧
    docCount (.obj [("root_nodes", .arr [
          .obj [("id", .int 1), ("child_nodes", .arr [
            .obj [("id", .int 3), ("m", .int 1)],
            .obj [("id", .int 2), ("m", .int 1), ("child_nodes", .arr [])]])]])])
      = docCount (.obj [("root_nodes", .arr [
          .obj [("id", .int 1)],
          .obj [("id", .int 2), ("m", .int 1),
            ("child_nodes", .arr [.obj [("id", .int 3), ("m", .int 1)]])]])]) ∧
    Value.arr ([] : List Value) ≠ .arr [.obj [("id", .int 3), ("m", .int 1)]] := by
  refine ⟨rfl, rfl, ?_⟩
  intro h
  simp at h

/-- C1 (amended).  For a well-formed document, when MOVE succeeds and some
node of the resulting tree renders the target id, the total node count is
conserved; and every matched spec-model node none of whose proper
descendants matches is collected into the reattachment batch with its
subtree unchanged in content (matched nodes with matching descendants lose
those descendants to separate collection, which the counterexample shows). -/
theorem C1_move_conserves_count (tp : String) (fg : FilterGroup) (value : Value)
    (adj : ℚ) (f : List (String × Value)) (rl : List Value) (d' : Value)
    (hrl : lookupV f "root_nodes" = some (.arr rl))
    (hwf : wfL rl = true)
    (hok : (apply_operation .MOVE tp fg value adj (.obj f)).ret = .ok (some d')) :
    ((∃ nf, Value.obj nf ∈ docReach d' ∧ idStrOf nf = tp) →
        docCount d' = docCount (.obj f)) ∧
    (∀ nf, Value.obj nf ∈ wreachL rl → nodeOkF nf = true →
        FilterGroup.evaluate fg nf = .ok true →
        (∀ mf, Value.obj mf ∈ wreachF nf → FilterGroup.evaluate fg mf = .ok false) →
        Value.obj nf ∈ collectMoved .MOVE tp fg value adj rl) := by
  have hhk : hasKey f "root_nodes" = true := hasKey_of_lookup f _ _ hrl
  rcases hcw : process_list .MOVE tp fg value adj rl with ⟨ret, sts⟩
  have hcw2 : childWalk .MOVE tp fg value adj (.arr rl)
      = ⟨ret, .arr sts⟩ := by
    cases ret with
    | error e => simp [childWalk, hcw]
    | ok p => simp [childWalk, hcw]
  cases ret with
  | error e =>
    simp [apply_operation, containsKey, hhk, hrl, hcw2] at hok
  | ok p =>
    rcases p with ⟨newl, mv⟩
    have hcons := move_walk_conserves tp fg value adj rl hwf newl mv (by rw [hcw])
    have hcollect : collectMoved .MOVE tp fg value adj rl = mv := by
      simp [collectMoved, hcw]
    refine ⟨?_, ?_⟩
    · -- count conservation
      intro ⟨nf, hmem, hid⟩
      have hcountf : docCount (.obj f) = nsizeL rl := by
        simp [docCount, hrl, nsize]
      cases mv with
      | nil =>
        have hd' : d' = .obj (setKey f "root_nodes" (.arr newl)) := by
          simp only [apply_operation, containsKey, hhk, hrl, hcw2] at hok
          simp only [Bool.and_false, List.isEmpty_nil, Bool.not_true] at hok
          injection hok with h1
          injection h1 with h2
          exact h2.symm
        subst hd'
        calc docCount (.obj (setKey f "root_nodes" (.arr newl))) = nsizeL newl := by
              simp [docCount, lookupV_setKey_eq f "root_nodes" _ hhk, nsize]
          _ = nsizeL rl := by simp only [nsizeL] at hcons; omega
          _ = docCount (.obj f) := hcountf.symm
      | cons m0 ms =>
        rcases hfut : find_and_update_target tp (m0 :: ms) newl with e | ⟨nl2, b⟩
        · simp [apply_operation, containsKey, hhk, hrl, hcw2, hfut] at hok
        · have hd' : d' = .obj (setKey f "root_nodes" (.arr nl2)) := by
            simp only [apply_operation, containsKey, hhk, hrl, hcw2] at hok
            simp only [List.isEmpty_cons, Bool.not_false, Bool.and_true, hfut] at hok
            injection hok with h1
            injection h1 with h2
            exact h2.symm
          subst hd'
          have hspec := fut_ok_spec tp (m0 :: ms) newl nl2 b hfut
          have hreach : docReach (.obj (setKey f "root_nodes" (.arr nl2))) = reachL nl2 := by
            simp [docReach, lookupV_setKey_eq f "root_nodes" _ hhk]
          cases b with
          | true =>
            have hsz := (hspec.2 rfl).1
            calc docCount (.obj (setKey f "root_nodes" (.arr nl2))) = nsizeL nl2 := by
                  simp [docCount, lookupV_setKey_eq f "root_nodes" _ hhk, nsize]
              _ = nsizeL rl := by omega
              _ = docCount (.obj f) := hcountf.symm
          | false =>
            obtain ⟨heq, hno⟩ := hspec.1 rfl
            subst heq
            rw [hreach] at hmem
            exact absurd hid (hno nf hmem)
    · -- collection of matched isolated nodes
      intro nf hmem hnok hev hdesc
      rw [hcollect]
      exact move_collects tp fg value adj rl newl mv (by rw [hcw]) nf hmem hnok hev hdesc

/-- Witness for C1 (amended): moving the node with `m = 1` under the node
with id 1 conserves the document's node count, and the matched node is
collected with its (empty) subtree unchanged. -/
theorem C1_move_conserves_count_witness :
    docCount (.obj [("root_nodes", .arr [
        .obj [("id", .int 1), ("child_nodes", .arr [.obj [("id", .int 2), ("m", .int 1)]])]])])
      = docCount (.obj [("root_nodes", .arr [
        .obj [("id", .int 1)], .obj [("id", .int 2), ("m", .int 1)]])]) ∧
    Value.obj [("id", .int 2), ("m", .int 1)]
      ∈ collectMoved .MOVE "1" ⟨[⟨"m", .EQUALS, .int 1⟩], .AND⟩ (.null) 1
        [.obj [("id", .int 1)], .obj [("id", .int 2), ("m", .int 1)]] := by
  have h := C1_move_conserves_count "1" ⟨[⟨"m", .EQUALS, .int 1⟩], .AND⟩ (.null) 1
    [("root_nodes", .arr [.obj [("id", .int 1)], .obj [("id", .int 2), ("m", .int 1)]])]
    [.obj [("id", .int 1)], .obj [("id", .int 2), ("m", .int 1)]]
    (.obj [("root_nodes", .arr [
        .obj [("id", .int 1), ("child_nodes", .arr [.obj [("id", .int 2), ("m", .int 1)]])]])])
    rfl rfl rfl
  constructor
  · refine h.1 ⟨[("id", .int 1), ("child_nodes", .arr [.obj [("id", .int 2), ("m", .int 1)]])], ?_, rfl⟩
    simp [docReach, lookupV, reachL, reach1, reachF, reachC]
  · refine h.2 [("id", .int 2), ("m", .int 1)] ?_ rfl rfl ?_
    · simp [wreachL, wreach1, wreachF]
    · intro mf hm
      simp [wreachF] at hm

end ScenarioOps
